import Mathlib

/-!
Verification of the 5-card-draw card game (server core).

This file is a shallow embedding, in Lean 4, of the game's hand evaluator
(`game.js`: `evaluateHand` and its eleven `check*` detectors, `findStraight`,
`performPlayerDraw`, deck construction and dealing) and of the server state
machine (`server/index.js`: `compareContributingRanks`, `handleShowdown`,
`prepareForNextRoundOrEndGame`, the connection handler and the
`playerDiscardRequest` handler), together with theorems settling the frozen
claims about the specification.

Conventions used throughout the embedding:
* JavaScript numbers that hold card-rank values are embedded as `Int`
  (the source's `findStraight` can manufacture values `1`, `0`, `-1` for
  joker-filled slots, so `Nat` would be unfaithful).
* JavaScript arrays are `List`s; `Array.prototype.pop` takes the LAST
  element (`getLast?` / `dropLast`).
* `Math.random`-driven shuffling is not modelled as randomness: every
  function that shuffles takes an explicit `shuffle : List Card → List Card`
  parameter; theorems that need the shuffle to be a real shuffle assume
  `∀ l, (shuffle l).Perm l`.
* Each hand detector in the source begins with the same preamble that
  classifies the 5 cards into jokers and natural cards and builds
  `rankCounts` / `actualCardRanks` / `uniqueSortedRanks`.  In the source the
  hand-ordered list `actualCardRanks` is only ever consumed through
  order-insensitive aggregates (`Math.max`, membership, `length`, counts,
  `new Set`, or an explicit `.sort((a,b)=>b-a)` immediately before use), so
  the embedding package `HandStats` precomputes the descending sort of the
  natural ranks (and of the natural ranks of each suit) and the detectors
  consume only that package.  Each detector's comments map its branches to
  the source lines.
-/

/-- Card suits. `jok` stands for the source's `'Joker'` suit string. -/
inductive Suit where
  | spades | hearts | diamonds | clubs | jok
deriving DecidableEq, Repr

/-- Card ranks. `jokerRank` stands for the source's `'Joker'` rank string. -/
inductive Rank where
  | ace | r2 | r3 | r4 | r5 | r6 | r7 | r8 | r9 | r10 | jack | queen | king | jokerRank
deriving DecidableEq, Repr

/-- A card, `game.js` `Card` typedef: `{suit, rank, isWild, id}`. -/
structure Card where
  suit : Suit
  rank : Rank
  isWild : Bool
  id : String
deriving DecidableEq, Repr

/-- `getRankValue` (game.js 117-125).  A is 14, K 13, Q 12, J 11, numerics
themselves; the `'Joker'` rank string falls through every test in the source
and yields 0. -/
def getRankValue : Rank → Int
  | .ace => 14
  | .king => 13
  | .queen => 12
  | .jack => 11
  | .r10 => 10
  | .r9 => 9
  | .r8 => 8
  | .r7 => 7
  | .r6 => 6
  | .r5 => 5
  | .r4 => 4
  | .r3 => 3
  | .r2 => 2
  | .jokerRank => 0

def suitName : Suit → String
  | .spades => "Spades"
  | .hearts => "Hearts"
  | .diamonds => "Diamonds"
  | .clubs => "Clubs"
  | .jok => "Joker"

def rankName : Rank → String
  | .ace => "A"
  | .r2 => "2"
  | .r3 => "3"
  | .r4 => "4"
  | .r5 => "5"
  | .r6 => "6"
  | .r7 => "7"
  | .r8 => "8"
  | .r9 => "9"
  | .r10 => "10"
  | .jack => "J"
  | .queen => "Q"
  | .king => "K"
  | .jokerRank => "Joker"

/-- `createDeck` (game.js 52-73): 13 ranks × 4 suits in nested-loop order,
then the two jokers. -/
def createDeck : List Card :=
  let suits := [Suit.spades, Suit.hearts, Suit.diamonds, Suit.clubs]
  let ranks := [Rank.ace, Rank.r2, Rank.r3, Rank.r4, Rank.r5, Rank.r6, Rank.r7,
    Rank.r8, Rank.r9, Rank.r10, Rank.jack, Rank.queen, Rank.king]
  (suits.flatMap fun s => ranks.map fun r =>
    { suit := s, rank := r, isWild := false, id := suitName s ++ "-" ++ rankName r })
  ++ [{ suit := .jok, rank := .jokerRank, isWild := true, id := "Joker-1" },
      { suit := .jok, rank := .jokerRank, isWild := true, id := "Joker-2" }]

/-! ### Descending sort

The source repeatedly writes `xs.sort((a, b) => b - a)`: a numeric sort in
descending order.  We embed it with Mathlib's insertion sort over the
relation `fun a b => b ≤ a`. -/

/-- The descending order relation used by the source's `(a, b) => b - a`
comparators. -/
def descRel (a b : Int) : Prop := b ≤ a

instance : DecidableRel descRel := fun a b => inferInstanceAs (Decidable (b ≤ a))

instance : IsTotal Int descRel := ⟨fun a b => le_total b a⟩

instance : IsTrans Int descRel := ⟨fun _ _ _ h1 h2 => le_trans h2 h1⟩

instance : IsAntisymm Int descRel := ⟨fun _ _ h1 h2 => le_antisymm h2 h1⟩

/-- `xs.sort((a, b) => b - a)` : sort a list of numbers in descending order. -/
def sortDesc (l : List Int) : List Int := l.insertionSort descRel

theorem sortDesc_perm (l : List Int) : (sortDesc l).Perm l :=
  List.perm_insertionSort descRel l

theorem sortDesc_sorted (l : List Int) : (sortDesc l).Sorted descRel :=
  List.sorted_insertionSort descRel l

/-- Two lists with the same multiset of elements have the same descending
sort. -/
theorem sortDesc_congr {l₁ l₂ : List Int} (h : l₁.Perm l₂) :
    sortDesc l₁ = sortDesc l₂ :=
  List.eq_of_perm_of_sorted
    ((sortDesc_perm l₁).trans (h.trans (sortDesc_perm l₂).symm))
    (sortDesc_sorted l₁) (sortDesc_sorted l₂)

/-! ### The per-hand statistics package

Every detector in game.js starts with the loop (e.g. lines 132-144)

    for (const card of hand) {
      if (card.isWild) numJokers++;
      else { rankCounts[v]++; actualCardRanks.push(v); }
    }

and derives `uniqueSortedRanks = [...new Set(actualCardRanks)].sort((a,b)=>b-a)`.
`HandStats` packages the results: `jokers` is `numJokers` and `ranks` is the
descending sort of `actualCardRanks` (see the header comment for why the
descending sort is a faithful stand-in for the hand-ordered list).  The
flush/straight-flush detectors additionally need, per suit, the natural
cards of that suit (game.js 1172-1174, 806-817); `bySuit` holds their rank
values sorted descending. -/
structure HandStats where
  jokers : Nat
  ranks : List Int
  spadesRanks : List Int
  heartsRanks : List Int
  diamondsRanks : List Int
  clubsRanks : List Int
deriving DecidableEq, Repr

def suitRanksOf (hand : List Card) (s : Suit) : List Int :=
  sortDesc (((hand.filter fun c => !c.isWild).filter fun c => c.suit = s).map
    fun c => getRankValue c.rank)

def handStats (hand : List Card) : HandStats :=
  { jokers := (hand.filter fun c => c.isWild).length
    ranks := sortDesc ((hand.filter fun c => !c.isWild).map fun c => getRankValue c.rank)
    spadesRanks := suitRanksOf hand .spades
    heartsRanks := suitRanksOf hand .hearts
    diamondsRanks := suitRanksOf hand .diamonds
    clubsRanks := suitRanksOf hand .clubs }

/-- `rankCounts[r] || 0`. -/
def HandStats.count (s : HandStats) (r : Int) : Nat := s.ranks.count r

/-- `uniqueSortedRanks`: the distinct natural ranks, descending. -/
def HandStats.uniq (s : HandStats) : List Int := s.ranks.dedup

/-- `actualCardRanks.length`. -/
def HandStats.len (s : HandStats) : Nat := s.ranks.length

theorem suitRanksOf_congr {h₁ h₂ : List Card} (hp : h₁.Perm h₂) (s : Suit) :
    suitRanksOf h₁ s = suitRanksOf h₂ s :=
  sortDesc_congr (((hp.filter _).filter _).map _)

/-- The statistics package only depends on the multiset of cards in the
hand: permuting the hand leaves it unchanged. -/
theorem handStats_congr {h₁ h₂ : List Card} (hp : h₁.Perm h₂) :
    handStats h₁ = handStats h₂ := by
  unfold handStats
  rw [(hp.filter fun c => c.isWild).length_eq,
    sortDesc_congr ((hp.filter _).map _),
    suitRanksOf_congr hp .spades, suitRanksOf_congr hp .hearts,
    suitRanksOf_congr hp .diamonds, suitRanksOf_congr hp .clubs]

/-! ### `findStraight` (game.js 1193-1257) -/

/-- The inner "build the straight downwards" loop of `findStraight`
(game.js 1214-1224): four more steps below `potentialStartRank`, each either
a present rank or a joker; stops early when neither is available. -/
def buildRun (rtc : List Int) (nj : Nat) : Nat → List Int → Nat → Int → List Int
  | 0, acc, _, _ => acc
  | k + 1, acc, ju, next =>
    if next ∈ rtc then buildRun rtc nj k (acc ++ [next]) ju (next - 1)
    else if ju < nj then buildRun rtc nj k (acc ++ [next]) (ju + 1) (next - 1)
    else acc

/-- The `for (let rank of [4,3,2])` part of the A-5 special case
(game.js 1236-1242), with its early `break`. -/
def wheelLow (rtc : List Int) (nj : Nat) : List Int → List Int → Nat → List Int × Nat
  | [], acc, ju => (acc, ju)
  | r :: rs, acc, ju =>
    if r ∈ rtc then wheelLow rtc nj rs (acc ++ [r]) ju
    else if ju < nj then wheelLow rtc nj rs (acc ++ [r]) (ju + 1)
    else (acc, ju)

/-- The A-5 special case at `potentialStartRank === 5`
(game.js 1231-1254). -/
def wheelTry (rtc : List Int) (nj : Nat) : Option (List Int) :=
  let p := wheelLow rtc nj [4, 3, 2] [5] 0
  let acc2 :=
    if p.1.length = 4 then
      if (14 : Int) ∈ rtc then p.1 ++ [14]
      else if p.2 < nj then p.1 ++ [14]
      else p.1
    else p.1
  if acc2.length = 5 then some ((sortDesc acc2).map fun r => if r = 1 then 14 else r)
  else none

/-- The outer loop of `findStraight` over candidate start ranks
(game.js 1206-1255). -/
def fsLoop (rtc : List Int) (nj : Nat) : List Int → Option (List Int)
  | [] => none
  | start :: rest =>
    let run := buildRun rtc nj 4 [start] 0 (start - 1)
    if run.length = 5 then some (sortDesc run)
    else if start = 5 then
      match wheelTry rtc nj with
      | some w => some w
      | none => fsLoop rtc nj rest
    else fsLoop rtc nj rest

/-- `findStraight` (game.js 1193-1257).  Callers pass rank lists already
sorted in descending order; if an Ace is present, `1` is added (Ace low)
and the list re-sorted. -/
def findStraight (uniqueSortedRanks : List Int) (numJokersAvailable : Nat) : Option (List Int) :=
  let ranksToCheck :=
    if (14 : Int) ∈ uniqueSortedRanks then sortDesc (uniqueSortedRanks ++ [1])
    else uniqueSortedRanks
  fsLoop ranksToCheck numJokersAvailable ranksToCheck

/-! ### Kicker-adjustment loops

The detectors repeatedly run small `while` loops that slide a candidate
kicker value downwards past ranks that are already used.  Each is embedded
with a fuel parameter; the fuel given at call sites (at least 16) exceeds
the maximum possible number of iterations (the values start at 14 and stop
below 2), so the embeddings are exact. -/

/-- `kicker = 14; while (kicker === a || kicker === b) kicker--;`
(e.g. game.js 215-216, 255-256, 269-270, 320-321, 361-362, 377-378). -/
def adjustKicker2 : Nat → Int → Int → Int → Int
  | 0, k, _, _ => k
  | fuel + 1, k, a, b => if k = a ∨ k = b then adjustKicker2 fuel (k - 1) a b else k

/-- Inner skip loop of the joker-kicker filler (game.js 444-447 and 600-603):
`while (next === avoid || kickers.includes(next)) { next--; if (next < 2) break; }`. -/
def skipDownA (avoid : Int) (kickers : List Int) : Nat → Int → Int
  | 0, next => next
  | fuel + 1, next =>
    if next = avoid ∨ next ∈ kickers then
      let n2 := next - 1
      if n2 < 2 then n2 else skipDownA avoid kickers fuel n2
    else next

/-- Outer joker-kicker filler loop (game.js 442-454, also 599-610 and
623-634 with `maxLen` 3): add jokers as the highest unused kicker ranks. -/
def fillKickA (avoid : Int) (maxLen : Nat) : Nat → List Int → Int → Nat → List Int
  | 0, kickers, _, _ => kickers
  | fuel + 1, kickers, next, remJ =>
    if kickers.length < maxLen ∧ 0 < remJ then
      let n2 := skipDownA avoid kickers 20 next
      if 2 ≤ n2 then fillKickA avoid maxLen fuel (kickers ++ [n2]) n2 (remJ - 1)
      else kickers
    else kickers

/-- Variant of the skip loop used in `checkThreeOfAKind`'s joker-heavy
branch (game.js 493-498), which additionally skips ranks present in
`uniqueSortedRanks` that were not picked as kickers. -/
def skipDownB (avoid : Int) (kickers uniq : List Int) : Nat → Int → Int
  | 0, next => next
  | fuel + 1, next =>
    if next = avoid ∨ next ∈ kickers ∨ (next ∈ uniq ∧ ¬ next ∈ kickers) then
      let n2 := next - 1
      if n2 < 2 then n2 else skipDownB avoid kickers uniq fuel n2
    else next

/-- Outer filler loop matching `skipDownB` (game.js 491-505). -/
def fillKickB (avoid : Int) (uniq : List Int) : Nat → List Int → Int → Nat → List Int
  | 0, kickers, _, _ => kickers
  | fuel + 1, kickers, next, remJ =>
    if kickers.length < 2 ∧ 0 < remJ then
      let n2 := skipDownB avoid kickers uniq 20 next
      if 2 ≤ n2 then fillKickB avoid uniq fuel (kickers ++ [n2]) n2 (remJ - 1)
      else kickers
    else kickers

/-! ### The eleven detectors

Each `checkX` is `checkXS ∘ handStats`; `checkXS` mirrors the source
line by line on the statistics package. -/

/-- `checkFiveOfAKind` (game.js 131-174) on the statistics package. -/
def checkFiveOfAKindS (s : HandStats) : Option (List Int) :=
  match s.uniq.find? (fun r => decide (5 ≤ s.count r + s.jokers)) with
  | some r => some [r]
  | none =>
    if s.jokers = 5 then some [14]
    else if 0 < s.jokers ∧ 0 < s.len then
      -- game.js 164-170: `Math.max(...actualCardRanks)` = head of the descending sort
      let highestRank := s.ranks.getD 0 0
      if 5 ≤ s.count highestRank + s.jokers then some [highestRank] else none
    else none

def checkFiveOfAKind (hand : List Card) : Option (List Int) :=
  checkFiveOfAKindS (handStats hand)

/-- Inner `for (let j ...)` loop of `checkTwoPair`'s no-natural-pair scan
(game.js 352-367): returns at the first index `j ≠ i` provided a joker
is left for the second pair. -/
def twoPairInner (uniq : List Int) (i : Nat) (fpa : Int) (jokersLeft : Nat) :
    Option (List Int) :=
  if 1 ≤ jokersLeft then
    match uniq.enum.find? (fun x => decide (¬ x.1 = i)) with
    | some x =>
      let spa := x.2
      let rem := uniq.filter fun r => decide (r ≠ fpa ∧ r ≠ spa)
      let kicker :=
        if 0 < rem.length then rem.getD 0 0
        else if 2 ≤ jokersLeft then
          let k0 := adjustKicker2 16 14 fpa spa
          if k0 < 2 then 12 else k0
        else 0
      some (sortDesc [fpa, spa, kicker])
    | none => none
  else none

/-- Outer `for (let i ...)` loop of `checkTwoPair`'s no-natural-pair scan
(game.js 347-394), fuelled by the list length. -/
def twoPairScanGo (s : HandStats) (uniq : List Int) : Nat → Nat → Option (List Int)
  | _, 0 => none
  | i, fuel + 1 =>
    if i < uniq.length then
      let fpa := uniq.getD i 0
      let jokersLeft := s.jokers - 1
      match twoPairInner uniq i fpa jokersLeft with
      | some r => some r
      | none =>
        if 2 ≤ jokersLeft then
          -- game.js 370-392
          let sprj := if fpa = 14 then (13 : Int) else 14
          let rem := uniq.filter fun r => decide (r ≠ fpa)
          let kicker :=
            if 0 < rem.length ∧ rem.getD 0 0 ≠ sprj then rem.getD 0 0
            else if 3 ≤ jokersLeft then
              let k0 := adjustKicker2 16 14 fpa sprj
              if k0 < 2 ∧ ((fpa = 14 ∧ sprj = 13) ∨ (fpa = 13 ∧ sprj = 14)) then 12
              else if k0 < 2 then 11
              else k0
            else if 0 < rem.length ∧ rem.getD 0 0 = sprj then rem.getD 0 0
            else 0
          some (sortDesc [fpa, sprj, kicker])
        else twoPairScanGo s uniq (i + 1) fuel
    else none

/-- The last two fall-through sections of `checkTwoPair`
(game.js 309-332 and 344-395). -/
def twoPairTail (s : HandStats) (pairsFound : List Int) : Option (List Int) :=
  let afterScanBlock :=
    if pairsFound.length = 0 ∧ 1 ≤ s.jokers ∧ 2 ≤ s.uniq.length then
      twoPairScanGo s s.uniq 0 s.uniq.length
    else none
  if 2 ≤ s.jokers ∧ 1 ≤ s.uniq.length then
    if 2 ≤ s.jokers ∧ 2 ≤ s.uniq.length then
      -- game.js 311-324
      let fp := s.uniq.getD 0 0
      let sp := s.uniq.getD 1 0
      let kicker :=
        if 3 ≤ s.uniq.length then s.uniq.getD 2 0
        else if 3 ≤ s.jokers ∨ (2 ≤ s.jokers ∧ s.uniq.length ≤ 2) then
          let k0 := adjustKicker2 16 14 fp sp
          if k0 < 2 then 12 else k0
        else 0
      some (sortDesc [fp, sp, kicker])
    else afterScanBlock
  else afterScanBlock

/-- `checkTwoPair` (game.js 180-399) on the statistics package. -/
def checkTwoPairS (s : HandStats) : Option (List Int) :=
  let pairsFound := s.uniq.filter fun r => decide (2 ≤ s.count r)
  if 2 ≤ pairsFound.length then
    -- game.js 206-235
    let sortedPairs := sortDesc pairsFound
    let hp := sortedPairs.getD 0 0
    let sp := sortedPairs.getD 1 0
    let cardsNotInPairs := s.ranks.filter fun r => decide (r ≠ hp ∧ r ≠ sp)
    let kicker :=
      if 0 < cardsNotInPairs.length then cardsNotInPairs.getD 0 0
      else if 0 < s.jokers then adjustKicker2 16 14 hp sp
      else 0
    if kicker = 0 ∧ s.len = 5 ∧ s.uniq.length = 2 then none
    else some (sortDesc [hp, sp, kicker])
  else if pairsFound.length = 1 then
    -- game.js 238-305
    let fp := pairsFound.getD 0 0
    let jokersAvailable := s.jokers
    let remainingActualRanks := s.uniq.filter fun r => decide (r ≠ fp)
    match remainingActualRanks.find? (fun r => decide (2 ≤ s.count r + jokersAvailable)) with
    | some spr =>
      let jokersUsedForSecondPair := 2 - s.count spr
      let remainingJokersForKicker := jokersAvailable - jokersUsedForSecondPair
      let cardsNotInPairs := s.ranks.filter fun r => decide (r ≠ fp ∧ r ≠ spr)
      let kicker :=
        if 0 < cardsNotInPairs.length then cardsNotInPairs.getD 0 0
        else if 0 < remainingJokersForKicker then adjustKicker2 16 14 fp spr
        else 0
      some (sortDesc [fp, spr, kicker])
    | none =>
      if 2 ≤ jokersAvailable ∧ remainingActualRanks.length = 0 then
        -- game.js 262-284
        let spr := if fp = 14 then (13 : Int) else 14
        let kicker :=
          if 1 ≤ jokersAvailable - 2 then
            let k0 := adjustKicker2 16 14 fp spr
            if k0 < 2 ∧ fp = 14 ∧ spr = 13 then 12
            else if k0 < 2 then 13
            else k0
          else
            let k0 := adjustKicker2 16 14 fp spr
            if k0 < 2 then 12 else k0
        some (sortDesc [fp, spr, kicker])
      else if 2 ≤ jokersAvailable ∧ 0 < remainingActualRanks.length then
        -- game.js 285-303; `Math.max` over a possibly empty list is
        -- -Infinity in JS, stood in for by the sentinel -1000000 (it is
        -- truthy, like -Infinity, and smaller than every rank).
        let spr := if fp = 14 then (13 : Int) else 14
        let filtered := remainingActualRanks.filter fun r => decide (r ≠ spr)
        let kicker0 := filtered.getD 0 (-1000000)
        let kicker :=
          if kicker0 = 0 ∧ 1 ≤ jokersAvailable - 2 then adjustKicker2 16 14 fp spr
          else kicker0
        some (sortDesc [fp, spr, kicker])
      else twoPairTail s pairsFound
  else twoPairTail s pairsFound

def checkTwoPair (hand : List Card) : Option (List Int) :=
  checkTwoPairS (handStats hand)

/-- The kicker-collection loop of `checkThreeOfAKind`'s joker-heavy branch
(game.js 472-481), which walks `uniqueSortedRanks` with an index. -/
def threeKickersGo (uniq : List Int) (three : Int) : List (Nat × Int) → List Int → List Int
  | [], acc => acc
  | (i, r) :: rest, acc =>
    if r ≠ three ∧ acc.length < 2 then threeKickersGo uniq three rest (acc ++ [r])
    else if r = three ∧ 1 < uniq.length ∧ i + 1 < uniq.length ∧ acc.length < 2 then
      if uniq.getD (i + 1) 0 ≠ three then threeKickersGo uniq three rest (acc ++ [uniq.getD (i + 1) 0])
      else threeKickersGo uniq three rest acc
    else threeKickersGo uniq three rest acc

/-- `checkThreeOfAKind` (game.js 405-512) on the statistics package. -/
def checkThreeOfAKindS (s : HandStats) : Option (List Int) :=
  match s.uniq.find? (fun r => decide (3 ≤ s.count r + s.jokers)) with
  | some three =>
    -- game.js 422-456
    let base := (sortDesc (s.ranks.filter fun r => decide (r ≠ three))).take 2
    let remainingJokers := s.jokers - (3 - s.count three)
    let kickers := fillKickA three 2 8 base 14 remainingJokers
    some (sortDesc (three :: (sortDesc kickers).take 2))
  | none =>
    -- game.js 463-508 (reachable from `evaluateHand` only for all-joker input)
    if s.len ≤ 2 ∧ 3 - s.len ≤ s.jokers ∧ 1 ≤ s.jokers then
      let three := if 0 < s.uniq.length then s.uniq.getD 0 0 else 14
      let base := threeKickersGo s.uniq three s.uniq.enum []
      let remainingJokers := s.jokers - (3 - s.count three)
      let kickers := fillKickB three s.uniq 8 base 14 remainingJokers
      some (sortDesc (three :: (sortDesc kickers).take 2))
    else none

def checkThreeOfAKind (hand : List Card) : Option (List Int) :=
  checkThreeOfAKindS (handStats hand)

/-- `checkStraight` (game.js 518-557) on the statistics package.  The guard
at lines 529-535 has an empty body and the suit examination at 544-552
performs no action, so the function reduces to `findStraight` over the
distinct natural ranks. -/
def checkStraightS (s : HandStats) : Option (List Int) :=
  findStraight s.uniq s.jokers

def checkStraight (hand : List Card) : Option (List Int) :=
  checkStraightS (handStats hand)

/-- `checkOnePair` (game.js 563-640) on the statistics package
(`actualCardRanks` is sorted descending at line 577, hence `s.ranks`). -/
def checkOnePairS (s : HandStats) : Option (List Int) :=
  match s.uniq.find? (fun r => decide (2 ≤ s.count r)) with
  | some p =>
    -- game.js 582-588
    some (sortDesc (p :: (s.ranks.filter fun r => decide (r ≠ p)).take 3))
  | none =>
    if 0 < s.jokers ∧ 0 < s.uniq.length then
      -- game.js 591-613
      let p := s.uniq.getD 0 0
      let base := (s.uniq.drop 1).take 3
      let kickers := fillKickA p 3 8 base 14 (s.jokers - 1)
      some (sortDesc (p :: (sortDesc kickers).take 3))
    else if 2 ≤ s.jokers then
      -- game.js 617-636; the filler starts at King since the pair is Aces
      let p := (14 : Int)
      let base := s.uniq.take 3
      let kickers := fillKickA p 3 8 base 13 (s.jokers - 2)
      some (sortDesc (p :: (sortDesc kickers).take 3))
    else none

def checkOnePair (hand : List Card) : Option (List Int) :=
  checkOnePairS (handStats hand)

/-- Joker-assignment loop of `checkHighCard` (game.js 655-660): walk the
ranks 14 down to 2, assigning each joker the highest rank not yet present. -/
def highCardGo : List Int → List Int → Nat → List Int
  | [], ranks, _ => ranks
  | r :: rest, ranks, j =>
    if j = 0 then ranks
    else if ¬ r ∈ ranks then highCardGo rest (ranks ++ [r]) (j - 1)
    else highCardGo rest ranks j

/-- `checkHighCard` (game.js 646-663) on the statistics package; always
matches, so no `Option`. -/
def checkHighCardS (s : HandStats) : List Int :=
  (sortDesc (highCardGo [14, 13, 12, 11, 10, 9, 8, 7, 6, 5, 4, 3, 2] s.ranks s.jokers)).take 5

def checkHighCard (hand : List Card) : List Int :=
  checkHighCardS (handStats hand)

/-- Joker-assignment loop of `checkFlush` (game.js 884-889): push the
highest ranks missing from the flush suit while jokers remain and the flush
is short of five ranks. -/
def flushGo : List Int → List Int → Nat → List Int
  | [], acc, _ => acc
  | r :: rest, acc, avail =>
    if acc.length < 5 then
      if ¬ r ∈ acc ∧ 0 < avail then flushGo rest (acc ++ [r]) (avail - 1)
      else flushGo rest acc avail
    else acc

/-- One iteration of `checkFlush`'s suit loop (game.js 820-909).  Returns
`none` both when the suit cannot flush and when the joker-completed rank set
would itself be a straight (line 905: in that case the source does not
return and moves on to the next suit). -/
def checkFlushSuit (jokers : Nat) (suitRanks : List Int) : Option (List Int) :=
  if 5 ≤ suitRanks.length + jokers then
    let ranksInFlush := sortDesc (flushGo [14, 13, 12, 11, 10, 9, 8, 7, 6, 5, 4, 3, 2] suitRanks jokers)
    let isAlsoStraightFlush :=
      if ranksInFlush.length = 5 then (findStraight ranksInFlush 0).isSome else false
    if ¬ isAlsoStraightFlush then some (ranksInFlush.take 5)
    else none
  else none

/-- `checkFlush` (game.js 806-912) on the statistics package.  The suit
object is iterated in insertion order: Spades, Hearts, Diamonds, Clubs.
(The computations at lines 839-875 are dead: their results are unused.) -/
def checkFlushS (s : HandStats) : Option (List Int) :=
  match checkFlushSuit s.jokers s.spadesRanks with
  | some r => some r
  | none =>
    match checkFlushSuit s.jokers s.heartsRanks with
    | some r => some r
    | none =>
      match checkFlushSuit s.jokers s.diamondsRanks with
      | some r => some r
      | none => checkFlushSuit s.jokers s.clubsRanks

def checkFlush (hand : List Card) : Option (List Int) :=
  checkFlushS (handStats hand)

/-- The main `threeRank` loop of `checkFullHouse` (game.js 936-984). -/
def fullHouseLoop (s : HandStats) : List Int → Option (List Int)
  | [] => none
  | three :: rest =>
    if 3 ≤ s.count three + s.jokers then
      let remainingJokers := s.jokers - (3 - s.count three)
      let otherRanks := s.uniq.filter fun r => decide (r ≠ three)
      match otherRanks.find? (fun r => decide (2 ≤ s.count r + remainingJokers)) with
      | some pr => some (sortDesc [three, pr])
      | none =>
        if 2 ≤ remainingJokers ∧ 1 < s.uniq.length then
          if otherRanks.length = 0 ∧ s.count three < 3 then
            -- game.js 967-973
            some (sortDesc [three, if three = 14 then 13 else 14])
          else if 0 < otherRanks.length ∧ 2 ≤ remainingJokers then
            -- game.js 974-981
            some (sortDesc [three, if (14 : Int) = three then 13 else 14])
          else fullHouseLoop s rest
        else fullHouseLoop s rest
    else fullHouseLoop s rest

/-- `checkFullHouse` (game.js 918-1031) on the statistics package. -/
def checkFullHouseS (s : HandStats) : Option (List Int) :=
  match fullHouseLoop s s.uniq with
  | some r => some r
  | none =>
    let r1 := s.uniq.getD 0 0
    let r2 := s.uniq.getD 1 0
    -- game.js 991-1006
    if 3 ≤ s.jokers ∧ s.uniq.length = 2 ∧
        (3 - (s.count r1 : Int)) + (2 - (s.count r2 : Int)) ≤ (s.jokers : Int) then
      some (sortDesc [r1, r2])
    -- game.js 1008-1024
    else if 2 ≤ s.jokers ∧ s.uniq.length = 2 ∧ s.count r1 = 2 ∧ s.count r2 = 1 ∧
        2 ≤ s.jokers then
      some (sortDesc [r1, r2])
    else none

def checkFullHouse (hand : List Card) : Option (List Int) :=
  checkFullHouseS (handStats hand)

/-- `checkFourOfAKind` (game.js 1037-1141) on the statistics package.
The kicker else-chain at 1067-1108 is embedded as an `Option Int`: `none`
corresponds to the `return null` at line 1088. -/
def checkFourOfAKindS (s : HandStats) : Option (List Int) :=
  match s.uniq.find? (fun r => decide (4 ≤ s.count r + s.jokers)) with
  | some four =>
    let cardsNotInFour := s.ranks.filter fun r => decide (r ≠ four)
    -- game.js 1064-1065: no clamping, so these are `Int`
    let remainingJokers : Int := (s.jokers : Int) - (4 - (s.count four : Int))
    let kickerOpt : Option Int :=
      if 0 < cardsNotInFour.length then some (cardsNotInFour.getD 0 0)
      else if 0 < remainingJokers then some (if four = 14 then 13 else 14)
      else if s.ranks.all (fun r => decide (r = four)) ∧ s.jokers = 1 then
        some (if four = 14 then 13 else 14)
      else if s.len = 0 ∧ s.jokers = 5 then none
      else if 0 < s.len ∧ s.count four = s.len ∧ s.jokers + s.len = 5 then
        some (if four = 14 then 13 else 14)
      else if 0 < remainingJokers then some (if four = 14 then 13 else 14)
      else some 0
    match kickerOpt with
    | none => none
    | some kicker => some (sortDesc [four, kicker])
  | none =>
    -- game.js 1115-1138
    if 4 ≤ s.jokers ∧ s.len ≤ 1 then
      let four := if s.len = 1 then s.ranks.getD 0 0 else 14
      if s.len = 1 ∧ s.ranks.getD 0 0 ≠ four then some (sortDesc [four, s.ranks.getD 0 0])
      else if s.len = 1 ∧ s.ranks.getD 0 0 = four then
        some (sortDesc [four, if four = 14 then 13 else 14])
      else if s.len = 0 then some (sortDesc [14, 13])
      else some (sortDesc [four, 0])
    else none

def checkFourOfAKind (hand : List Card) : Option (List Int) :=
  checkFourOfAKindS (handStats hand)

/-- One suit's attempt inside `checkStraightFlush` (game.js 1172-1183). -/
def sfTrySuit (jokers : Nat) (suitRanks : List Int) : Option (List Int) :=
  if suitRanks.length + jokers < 5 then none
  else findStraight suitRanks jokers

/-- `checkStraightFlush` (game.js 1165-1185) on the statistics package. -/
def checkStraightFlushS (s : HandStats) : Option (List Int) :=
  if s.len + s.jokers < 5 then none
  else
    match sfTrySuit s.jokers s.spadesRanks with
    | some r => some r
    | none =>
      match sfTrySuit s.jokers s.heartsRanks with
      | some r => some r
      | none =>
        match sfTrySuit s.jokers s.diamondsRanks with
        | some r => some r
        | none => sfTrySuit s.jokers s.clubsRanks

def checkStraightFlush (hand : List Card) : Option (List Int) :=
  checkStraightFlushS (handStats hand)

/-- `checkRoyalFlush` (game.js 1147-1159): a straight flush whose first
(highest) reported rank is an Ace. -/
def checkRoyalFlushS (s : HandStats) : Option (List Int) :=
  match checkStraightFlushS s with
  | some r => if r.getD 0 0 = 14 then some r else none
  | none => none

def checkRoyalFlush (hand : List Card) : Option (List Int) :=
  checkRoyalFlushS (handStats hand)

/-! ### `evaluateHand` (game.js 670-737) -/

/-- `HAND_TYPES` (game.js 2-14). -/
inductive HandType where
  | fiveOfAKind | royalFlush | straightFlush | fourOfAKind | fullHouse
  | flush | straight | threeOfAKind | twoPair | onePair | highCard
deriving DecidableEq, Repr

/-- `HAND_SCORES` (game.js 16-28). -/
def handScore : HandType → Nat
  | .fiveOfAKind => 100
  | .royalFlush => 90
  | .straightFlush => 80
  | .fourOfAKind => 70
  | .fullHouse => 60
  | .flush => 50
  | .straight => 40
  | .threeOfAKind => 30
  | .twoPair => 20
  | .onePair => 10
  | .highCard => 0

/-- The evaluator's result `{handName, score, contributingRanks}`. -/
structure HandEvaluationResult where
  handName : HandType
  score : Nat
  contributingRanks : List Int
deriving DecidableEq, Repr

/-- `evaluateHand` (game.js 670-737).  Throws (here: `Except.error`) when
the hand does not hold exactly 5 cards; otherwise tries the detectors in
source order.  Note the flush and straight branches re-check
`checkStraightFlush` and, when it matches, fall through to the next
detector instead of returning (game.js 702-718). -/
def evaluateHand (hand : List Card) : Except String HandEvaluationResult :=
  if hand.length ≠ 5 then .error "Hand must contain exactly 5 cards."
  else
    match checkFiveOfAKind hand with
    | some r => .ok ⟨.fiveOfAKind, handScore .fiveOfAKind, r⟩
    | none =>
    match checkRoyalFlush hand with
    | some r => .ok ⟨.royalFlush, handScore .royalFlush, r⟩
    | none =>
    match checkStraightFlush hand with
    | some r => .ok ⟨.straightFlush, handScore .straightFlush, r⟩
    | none =>
    match checkFourOfAKind hand with
    | some r => .ok ⟨.fourOfAKind, handScore .fourOfAKind, r⟩
    | none =>
    match checkFullHouse hand with
    | some r => .ok ⟨.fullHouse, handScore .fullHouse, r⟩
    | none =>
    match checkFlush hand, checkStraightFlush hand with
    | some r, none => .ok ⟨.flush, handScore .flush, r⟩
    | _, _ =>
    match checkStraight hand, checkStraightFlush hand with
    | some r, none => .ok ⟨.straight, handScore .straight, r⟩
    | _, _ =>
    match checkThreeOfAKind hand with
    | some r => .ok ⟨.threeOfAKind, handScore .threeOfAKind, r⟩
    | none =>
    match checkTwoPair hand with
    | some r => .ok ⟨.twoPair, handScore .twoPair, r⟩
    | none =>
    match checkOnePair hand with
    | some r => .ok ⟨.onePair, handScore .onePair, r⟩
    | none => .ok ⟨.highCard, handScore .highCard, checkHighCard hand⟩

/-! ### `compareContributingRanks` (server/index.js 36-44)

The JS loop walks index `i` from 0 up to `Math.max` of the two lengths,
reads a missing entry (`undefined`) as `-1`, and returns at the first
difference.  `cmpRanksGo` is that loop, with one fuel unit per remaining
iteration. -/

def cmpRanksGo (ranksA ranksB : List Int) : Nat → Nat → Int
  | 0, _ => 0
  | fuel + 1, i =>
    if ranksA.getD i (-1) > ranksB.getD i (-1) then 1
    else if ranksA.getD i (-1) < ranksB.getD i (-1) then -1
    else cmpRanksGo ranksA ranksB fuel (i + 1)

def compareContributingRanks (ranksA ranksB : List Int) : Int :=
  cmpRanksGo ranksA ranksB (max ranksA.length ranksB.length) 0

/-! ### `dealInitialHands` (game.js 94-107) and `performPlayerDraw`
(game.js 747-799) -/

/-- The inner `for (let i = 0; i < 5; i++)` deal loop: pop (take from the
END of) the deck up to `n` times, stopping if the deck empties. -/
def dealCards : Nat → List Card → List Card → List Card × List Card
  | 0, acc, deck => (acc, deck)
  | n + 1, acc, deck =>
    match deck.getLast? with
    | none => (acc, deck)
    | some c => dealCards n (acc ++ [c]) deck.dropLast

/-- A player (server/index.js 166-173; the unused display name and the
transport handle are omitted — `id` stands for both `id` and `socketId`,
which the source always keeps equal). -/
structure Player where
  id : Nat
  hand : List Card
  score : Nat
  hasCompletedDrawPhase : Bool
deriving DecidableEq, Repr

/-- `dealInitialHands` (game.js 94-107): five cards per player, popped off
the end of the deck, player by player. -/
def dealInitialHands : List Player → List Card → List Player × List Card
  | [], deck => ([], deck)
  | p :: ps, deck =>
    let d := dealCards 5 [] deck
    let rest := dealInitialHands ps d.2
    ({ p with hand := d.1 } :: rest.1, rest.2)

/-- The draw loop of `performPlayerDraw` (game.js 777-797).  One fuel unit
per loop iteration; an iteration that finds the deck empty recycles the
shuffled discard pile into the deck and (if that produced any cards) pops
one card, exactly as one JS iteration does.  When deck and discard pile are
both empty the JS `break`s; returning immediately is the same final state,
because every remaining iteration would be a no-op followed by that break. -/
def drawLoop (shuffle : List Card → List Card) :
    Nat → List Card → List Card → List Card → List Card × List Card × List Card
  | 0, hand, deck, discard => (hand, deck, discard)
  | n + 1, hand, deck, discard =>
    if deck.isEmpty then
      if discard.isEmpty then (hand, deck, discard)
      else
        let d := shuffle discard
        match d.getLast? with
        | none => (hand, d, [])
        | some c => drawLoop shuffle n (hand ++ [c]) d.dropLast []
    else
      match deck.getLast? with
      | none => (hand, deck, discard)
      | some c => drawLoop shuffle n (hand ++ [c]) deck.dropLast discard

/-- The cards kept by a draw: hand entries whose position is not selected,
in their original order (game.js 764-770). -/
def keptCards (hand : List Card) (idxs : List Nat) : List Card :=
  (hand.enum.filter fun x => !decide (x.1 ∈ idxs)).map fun x => x.2

/-- The cards discarded by a draw: hand entries whose position is selected,
in their original order (game.js 764-770). -/
def discardedCards (hand : List Card) (idxs : List Nat) : List Card :=
  (hand.enum.filter fun x => decide (x.1 ∈ idxs)).map fun x => x.2

/-- `performPlayerDraw` (game.js 747-799), acting on the player's hand.
Returns (new hand, new deck, new discard pile).

The source's index validation is inert here: the `Array.isArray` test always
passes for a `List Nat`, and the intended range check at line 754 is
defeated by a precedence slip — `.some(isNaN || index < 0 || ...)` evaluates
`isNaN || ...` once to the (truthy) `isNaN` function, so only
`.some(isNaN)` runs, which no `Nat` satisfies.  Line 759 sorts the indices,
but only membership tests are used afterwards, so the sort is immaterial. -/
def performPlayerDraw (shuffle : List Card → List Card) (hand : List Card)
    (cardsToDiscardIndices : List Nat) (deck discardPile : List Card) :
    List Card × List Card × List Card :=
  drawLoop shuffle cardsToDiscardIndices.length (keptCards hand cardsToDiscardIndices)
    deck (discardPile ++ discardedCards hand cardsToDiscardIndices)

/-! ### The game session (server/index.js) -/

/-- The game phases used by server/index.js. -/
inductive Phase where
  | waitingForPlayers | drawPhase | showdown | preparingNewRound | gameOver
deriving DecidableEq, Repr

/-- `gameState` (server/index.js 13-26). -/
structure GameState where
  players : List Player
  deck : List Card
  discardPile : List Card
  currentPlayerTurnIndex : Nat
  currentRound : Nat
  maxRounds : Nat
  gamePhase : Phase
deriving DecidableEq, Repr

/-- `initializeGameState` (server/index.js 13-26). -/
def initializeGameState (shuffle : List Card → List Card) : GameState :=
  { players := []
    deck := shuffle createDeck
    discardPile := []
    currentPlayerTurnIndex := 0
    currentRound := 0
    maxRounds := 3
    gamePhase := .waitingForPlayers }

/-- Per-player evaluation during the showdown.  The source calls
`evaluateHand` directly (server/index.js 53); with every hand at 5 cards the
error branch is unreachable, and is given a harmless default so the
embedding stays total. -/
def evalHandOrDefault (hand : List Card) : HandEvaluationResult :=
  match evaluateHand hand with
  | .ok r => r
  | .error _ => ⟨.highCard, 0, []⟩

/-- One showdown entry: player id, hand-strength score, contributing ranks
(the subset of the source's result record that scoring reads). -/
structure ShowdownEntry where
  playerId : Nat
  handStrengthScore : Nat
  contributingRanks : List Int
deriving DecidableEq, Repr

/-- Evaluate all hands (server/index.js 52-66). -/
def showdownEntries (players : List Player) : List ShowdownEntry :=
  players.map fun p =>
    let r := evalHandOrDefault p.hand
    ⟨p.id, r.score, r.contributingRanks⟩

/-- `bestHandScoreInRound` (server/index.js 50, 63-65): fold starting at -1. -/
def bestScore (entries : List ShowdownEntry) : Int :=
  entries.foldl (fun b e => if (e.handStrengthScore : Int) > b then (e.handStrengthScore : Int) else b) (-1)

/-- The round winners (server/index.js 67-82): all best-score entries,
sorted by descending contributing ranks, then the leading group of ties. -/
def roundWinners (players : List Player) : List ShowdownEntry :=
  let entries := showdownEntries players
  let potentialWinners := entries.filter fun e => decide ((e.handStrengthScore : Int) = bestScore entries)
  if potentialWinners.length = 1 then potentialWinners
  else if 1 < potentialWinners.length then
    -- `.sort((a, b) => compareContributingRanks(b.contributingRanks, a.contributingRanks))`
    let sorted := potentialWinners.insertionSort fun a b =>
      0 ≤ compareContributingRanks a.contributingRanks b.contributingRanks
    match sorted with
    | [] => []
    | first :: rest =>
      first :: rest.takeWhile fun e =>
        decide (compareContributingRanks first.contributingRanks e.contributingRanks = 0)
  else []

/-- The ids of the round winners. -/
def roundWinnerIds (players : List Player) : List Nat :=
  (roundWinners players).map fun e => e.playerId

/-- `gameState.players.find(p => p.id === id).score += 1`
(server/index.js 84-88): add one point to the first player with the given
id. -/
def incrementWinner : List Player → Nat → List Player
  | [], _ => []
  | p :: ps, wid =>
    if p.id = wid then { p with score := p.score + 1 } :: ps
    else p :: incrementWinner ps wid

/-- `prepareForNextRoundOrEndGame` (server/index.js 105-158).  Either the
game ends, or: the discard pile is merged into the deck and shuffled, every
hand is reset to empty (the held cards are NOT returned to the deck),
flags are cleared, fresh hands are dealt and the turn index resets. -/
def prepareForNextRoundOrEndGame (shuffle : List Card → List Card) (s : GameState) : GameState :=
  let round := s.currentRound + 1
  if round > s.maxRounds then
    { s with currentRound := round, gamePhase := .gameOver }
  else
    let deck1 := shuffle (s.deck ++ s.discardPile)
    let cleared := s.players.map fun p => { p with hand := [], hasCompletedDrawPhase := false }
    let dealt := dealInitialHands cleared deck1
    { players := dealt.1
      deck := dealt.2
      discardPile := []
      currentPlayerTurnIndex := 0
      currentRound := round
      maxRounds := s.maxRounds
      gamePhase := .drawPhase }

/-- `handleShowdown` (server/index.js 46-103): no-op outside the showdown
phase; otherwise award one point to each round winner and hand over to
`prepareForNextRoundOrEndGame`. -/
def handleShowdown (shuffle : List Card → List Card) (s : GameState) : GameState :=
  if s.gamePhase ≠ .showdown then s
  else
    let players2 := (roundWinnerIds s.players).foldl incrementWinner s.players
    prepareForNextRoundOrEndGame shuffle { s with players := players2 }

/-- The connection handler (server/index.js 164-207): seat the participant
while waiting and below four players; on the fourth join deal hands and
start round 1. -/
def handleConnection (s : GameState) (sid : Nat) : GameState :=
  if s.gamePhase = .waitingForPlayers ∧ s.players.length < 4 then
    let st := { s with players := s.players ++
      [{ id := sid, hand := [], score := 0, hasCompletedDrawPhase := false }] }
    if st.players.length = 4 then
      let dealt := dealInitialHands st.players st.deck
      { st with
        players := dealt.1.map fun p => { p with hasCompletedDrawPhase := false }
        deck := dealt.2
        currentRound := 1
        currentPlayerTurnIndex := 0
        gamePhase := .drawPhase }
    else st
  else s

/-- `players[idx].hasCompletedDrawPhase`, with `false` when the index is out
of range (the source never looks one up out of range). -/
def flagAt (players : List Player) (i : Nat) : Bool :=
  match players.get? i with
  | some p => p.hasCompletedDrawPhase
  | none => false

/-- The `do … while` turn-advance loop (server/index.js 281-284), fuelled:
step to `(idx+1) % len` while the player there has completed the draw phase
and we have not come back around to the player who just moved. -/
def nextGo (players : List Player) (current : Nat) : Nat → Nat → Nat
  | 0, idx => idx
  | fuel + 1, idx =>
    if flagAt players idx ∧ idx ≠ current then
      nextGo players current fuel ((idx + 1) % players.length)
    else idx

/-- The advanced turn index after a successful discard
(server/index.js 280-289). -/
def nextTurnIndex (players : List Player) (current : Nat) : Nat :=
  nextGo players current players.length ((current + 1) % players.length)

/-- The state part of a successfully validated discard: run
`performPlayerDraw` for the current player and set their
`hasCompletedDrawPhase` (server/index.js 255-256). -/
def applyDrawToState (shuffle : List Card → List Card) (s : GameState)
    (idxs : List Nat) : GameState :=
  match s.players.get? s.currentPlayerTurnIndex with
  | none => s
  | some cp =>
    let d := performPlayerDraw shuffle cp.hand idxs s.deck s.discardPile
    { s with
      players := s.players.set s.currentPlayerTurnIndex
        { cp with hand := d.1, hasCompletedDrawPhase := true }
      deck := d.2.1
      discardPile := d.2.2 }

/-- The `playerDiscardRequest` handler (server/index.js 227-300).  Returns
the new state plus `some message` when an `actionError` was emitted (in
which case the state is returned untouched, as the source returns before
mutating anything).  Indices arrive as `Int` so that the source's negative-
index validation is representable; `Array.isArray` and the `isNaN` test
cannot fail for a `List Int`.  The `none` arm for a missing current player
models a state the server cannot reach (the turn index always indexes a
seated player); the source would throw there. -/
def playerDiscardRequest (shuffle : List Card → List Card) (s : GameState)
    (requesterId : Nat) (indices : List Int) : GameState × Option String :=
  if s.gamePhase ≠ .drawPhase then
    (s, some "Not the correct game phase for discarding.")
  else
    match s.players.get? s.currentPlayerTurnIndex with
    | none => (s, some "no current player")
    | some currentPlayer =>
      if requesterId ≠ currentPlayer.id then
        (s, some "Not your turn to discard.")
      else if (indices.any fun i => decide (i < 0 ∨ (currentPlayer.hand.length : Int) ≤ i)) ∨
          5 < indices.length then
        (s, some "Invalid cards to discard. Indices must be valid and 0-5 cards.")
      else if indices.dedup.length ≠ indices.length then
        (s, some "Duplicate discard indices are not allowed.")
      else
        let s1 := applyDrawToState shuffle s (indices.map Int.toNat)
        if s1.players.all fun p => p.hasCompletedDrawPhase then
          (handleShowdown shuffle { s1 with gamePhase := .showdown }, none)
        else
          ({ s1 with currentPlayerTurnIndex := nextTurnIndex s1.players s.currentPlayerTurnIndex },
            none)

/-- Deck + discard pile + all hands, counted with multiplicity. -/
def totalCardCount (s : GameState) : Nat :=
  s.deck.length + s.discardPile.length + (s.players.map fun p => p.hand.length).sum

/-! ### Concrete cards used by the claim theorems -/

def cardOf (s : Suit) (r : Rank) : Card :=
  { suit := s, rank := r, isWild := false, id := suitName s ++ "-" ++ rankName r }

def joker1 : Card := { suit := .jok, rank := .jokerRank, isWild := true, id := "Joker-1" }

def joker2 : Card := { suit := .jok, rank := .jokerRank, isWild := true, id := "Joker-2" }

/-! ### Claim C1 -/

/-- C1: for the hand {7♥, 7♦, Joker, Joker, 2♣}, `evaluateHand` returns
Four of a Kind — not Five of a Kind (two natural sevens plus two wilds only
reach a count of four) — with quad rank 7 and the kicker taken from the
remaining natural card, i.e. contributing ranks [7, 2]. -/
theorem claim1_fourOfAKindSevens :
    evaluateHand [cardOf .hearts .r7, cardOf .diamonds .r7, joker1, joker2, cardOf .clubs .r2] =
      .ok { handName := .fourOfAKind, score := 70, contributingRanks := [7, 2] } := by
  rfl

/-! ### Claim C2 -/

/-- C2, counterexample: the hand {K♠, Q♠, J♠, 10♠, Joker} qualifies for
Royal Flush under the wild-card assignment Joker ↦ A♠ — the assigned hand
{A♠, K♠, Q♠, J♠, 10♠} is itself evaluated as Royal Flush — yet
`evaluateHand` reports the joker hand one category lower, as Straight
Flush.  So a hand qualifying for a higher category under some wild-card
assignment is reported as a lower one, refuting the claim as stated. -/
theorem claim2_counterexample :
    evaluateHand [cardOf .spades .king, cardOf .spades .queen, cardOf .spades .jack,
        cardOf .spades .r10, joker1] =
      .ok { handName := .straightFlush, score := 80, contributingRanks := [13, 12, 11, 10, 9] } ∧
    evaluateHand [cardOf .spades .king, cardOf .spades .queen, cardOf .spades .jack,
        cardOf .spades .r10, cardOf .spades .ace] =
      .ok { handName := .royalFlush, score := 90, contributingRanks := [14, 13, 12, 11, 10] } := by
  exact ⟨by rfl, by rfl⟩

/-- C2, amended: `evaluateHand` checks the categories in the strict
descending source order and returns at the first match, so a hand on which
`checkStraightFlush` finds a straight flush is always reported as Five of a
Kind, Royal Flush or Straight Flush (score ≥ 80) and never as Flush or any
lower category.  (The original claim's stronger clause — that a hand
qualifying for a higher category under ANY wild-card assignment is never
reported lower — fails, per the counterexample.) -/
theorem claim2_amended (hand : List Card) (h5 : hand.length = 5)
    (hsf : (checkStraightFlush hand).isSome) :
    ∃ r, evaluateHand hand = .ok r ∧ 80 ≤ r.score := by
  unfold evaluateHand
  rw [if_neg (by simp [h5])]
  cases h1 : checkFiveOfAKind hand with
  | some r => exact ⟨_, rfl, by norm_num [handScore]⟩
  | none =>
    cases h2 : checkRoyalFlush hand with
    | some r => exact ⟨_, rfl, by norm_num [handScore]⟩
    | none =>
      obtain ⟨r, hr⟩ := Option.isSome_iff_exists.mp hsf
      rw [hr]
      exact ⟨_, rfl, by norm_num [handScore]⟩

/-- Witness for `claim2_amended` at the counterexample hand. -/
theorem claim2_amended_witness :
    ∃ r, evaluateHand [cardOf .spades .king, cardOf .spades .queen, cardOf .spades .jack,
        cardOf .spades .r10, joker1] = .ok r ∧ 80 ≤ r.score :=
  claim2_amended _ (by rfl) (by rfl)

/-! ### Claim C3 -/

/-- C3: `evaluateHand` raises (returns `Except.error`) if and only if its
input does not contain exactly 5 cards; on every 5-card input some result
is produced (the High Card fallback always succeeds). -/
theorem claim3_evaluateHand_total (hand : List Card) :
    (∃ r, evaluateHand hand = .ok r) ↔ hand.length = 5 := by
  constructor
  · rintro ⟨r, hr⟩
    by_contra h
    unfold evaluateHand at hr
    rw [if_pos h] at hr
    exact absurd hr (by simp)
  · intro h5
    unfold evaluateHand
    rw [if_neg (by simp [h5])]
    repeat' first
    | exact ⟨_, rfl⟩
    | split

/-! ### Claim C5 -/

/-- C5: `evaluateHand` is invariant under permutation of the hand —
identical category, score and contributing ranks.  Every detector consumes
the hand only through the multiset-determined statistics package, and the
5-card length test only through the length. -/
theorem claim5_perm_invariant (h₁ h₂ : List Card) (hp : h₁.Perm h₂) :
    evaluateHand h₁ = evaluateHand h₂ := by
  unfold evaluateHand checkFiveOfAKind checkRoyalFlush checkStraightFlush checkFourOfAKind
    checkFullHouse checkFlush checkStraight checkThreeOfAKind checkTwoPair checkOnePair
    checkHighCard
  rw [hp.length_eq, handStats_congr hp]

/-- Witness for `claim5_perm_invariant` at a concrete permuted pair. -/
theorem claim5_perm_invariant_witness :
    evaluateHand [cardOf .spades .ace, cardOf .spades .king, cardOf .spades .queen,
        cardOf .spades .jack, cardOf .spades .r10] =
      evaluateHand [cardOf .spades .r10, cardOf .spades .jack, cardOf .spades .queen,
        cardOf .spades .king, cardOf .spades .ace] :=
  claim5_perm_invariant _ _ (by decide)


/-! ### Claim C4: properties of `compareContributingRanks` -/

/-- Once the index passes both lengths the loop only compares -1 with -1
and ends at 0. -/
theorem cmpRanksGo_stable (A B : List Int) :
    ∀ fuel i, A.length ≤ i → B.length ≤ i → cmpRanksGo A B fuel i = 0 := by
  intro fuel
  induction fuel with
  | zero => intro i _ _; rfl
  | succ fuel ih =>
    intro i hA hB
    simp only [cmpRanksGo]
    rw [List.getD_eq_default _ _ hA, List.getD_eq_default _ _ hB]
    simp only [gt_iff_lt, lt_self_iff_false, if_false]
    exact ih (i + 1) (by omega) (by omega)

/-- The result does not depend on the fuel, provided the fuel reaches the
longer length (as `Math.max` does in the source). -/
theorem cmpRanksGo_fuel_congr (A B : List Int) :
    ∀ f₁ f₂ i, max A.length B.length ≤ i + f₁ → max A.length B.length ≤ i + f₂ →
      cmpRanksGo A B f₁ i = cmpRanksGo A B f₂ i := by
  intro f₁
  induction f₁ with
  | zero =>
    intro f₂ i h1 _
    exact (cmpRanksGo_stable A B f₂ i (by omega) (by omega)).symm
  | succ f₁ ih =>
    intro f₂ i h1 h2
    cases f₂ with
    | zero => exact cmpRanksGo_stable A B (f₁ + 1) i (by omega) (by omega)
    | succ f₂ =>
      simp only [cmpRanksGo]
      split_ifs
      · rfl
      · rfl
      · exact ih f₂ (i + 1) (by omega) (by omega)

theorem cmpRanksGo_neg (A B : List Int) :
    ∀ fuel i, cmpRanksGo A B fuel i = -cmpRanksGo B A fuel i := by
  intro fuel
  induction fuel with
  | zero => intro i; simp [cmpRanksGo]
  | succ fuel ih =>
    intro i
    simp only [cmpRanksGo]
    split_ifs <;> first | omega | exact ih (i + 1)

theorem cmpRanksGo_trichotomy (A B : List Int) :
    ∀ fuel i, cmpRanksGo A B fuel i = 1 ∨ cmpRanksGo A B fuel i = 0 ∨
      cmpRanksGo A B fuel i = -1 := by
  intro fuel
  induction fuel with
  | zero => intro i; simp [cmpRanksGo]
  | succ fuel ih =>
    intro i
    simp only [cmpRanksGo]
    split_ifs <;> first | simp | exact ih (i + 1)

theorem cmpRanksGo_le_trans (A B C : List Int) :
    ∀ fuel i, cmpRanksGo A B fuel i ≤ 0 → cmpRanksGo B C fuel i ≤ 0 →
      cmpRanksGo A C fuel i ≤ 0 := by
  intro fuel
  induction fuel with
  | zero => intro i _ _; exact le_refl 0
  | succ fuel ih =>
    intro i h1 h2
    simp only [cmpRanksGo] at h1 h2 ⊢
    split_ifs at h1 h2 ⊢ <;> first | omega | exact ih (i + 1) h1 h2

/-- Zero exactly when the padded sequences agree from the index on. -/
theorem cmpRanksGo_zero_iff (A B : List Int) :
    ∀ fuel i, max A.length B.length ≤ i + fuel →
      (cmpRanksGo A B fuel i = 0 ↔ ∀ j, i ≤ j → A.getD j (-1) = B.getD j (-1)) := by
  intro fuel
  induction fuel with
  | zero =>
    intro i h
    constructor
    · intro _ j hj
      rw [List.getD_eq_default _ _ (by omega), List.getD_eq_default _ _ (by omega)]
    · intro _; rfl
  | succ fuel ih =>
    intro i h
    simp only [cmpRanksGo]
    split_ifs with h1 h2
    · constructor
      · intro h0; exact absurd h0 (by omega)
      · intro hall; have := hall i le_rfl; omega
    · constructor
      · intro h0; exact h0.elim
      · intro hall; have := hall i le_rfl; omega
    · rw [ih (i + 1) (by omega)]
      constructor
      · intro hall j hj
        rcases Nat.eq_or_lt_of_le hj with heq | hlt
        · subst heq; omega
        · exact hall j hlt
      · intro hall j hj
        exact hall j (by omega)

/-- On sequences of genuine (non-negative) rank values, pointwise equality
of the padded streams is the same as list equality. -/
theorem pads_eq_iff (a b : List Int) (ha : ∀ x ∈ a, 0 ≤ x) (hb : ∀ x ∈ b, 0 ≤ x) :
    (∀ j, a.getD j (-1) = b.getD j (-1)) ↔ a = b := by
  constructor
  · intro h
    have hlen : a.length = b.length := by
      by_contra hne
      rcases Nat.lt_or_ge a.length b.length with hlt | hge
      · have h1 := h a.length
        rw [List.getD_eq_default _ _ le_rfl, List.getD_eq_getElem _ _ hlt] at h1
        have := hb _ (List.getElem_mem hlt)
        omega
      · have hlt : b.length < a.length := lt_of_le_of_ne hge fun hh => hne hh.symm
        have h1 := h b.length
        rw [List.getD_eq_default _ _ le_rfl, List.getD_eq_getElem _ _ hlt] at h1
        have := ha _ (List.getElem_mem hlt)
        omega
    apply List.ext_getElem hlen
    intro i h1 h2
    have hi := h i
    rwa [List.getD_eq_getElem _ _ h1, List.getD_eq_getElem _ _ h2] at hi
  · rintro rfl j; rfl

/-- Index shifting: comparing two conses from index `i + 1` is comparing
the tails from index `i`. -/
theorem cmpRanksGo_cons_shift (x y : Int) (xs ys : List Int) :
    ∀ fuel i, cmpRanksGo (x :: xs) (y :: ys) fuel (i + 1) = cmpRanksGo xs ys fuel i := by
  intro fuel
  induction fuel with
  | zero => intro i; rfl
  | succ fuel ih =>
    intro i
    simp only [cmpRanksGo, List.getD_cons_succ]
    split_ifs
    · rfl
    · rfl
    · exact ih (i + 1)

/-- C4, counterexample: the two rank sequences [5] and [5, 3] agree through
the shorter one's end, yet `compareContributingRanks` does not call them a
tie — the missing trailing element is read as -1 and loses to the real rank
3.  The claim's "sequences equal through the shorter length's end compare
as a tie" clause is therefore false on the code (it contradicts the
missing-elements-compare-lower clause). -/
theorem claim4_counterexample :
    ([5] : List Int).take 1 = ([5, 3] : List Int).take 1 ∧
      compareContributingRanks [5] [5, 3] = -1 := by
  exact ⟨rfl, by decide⟩

/-- C4, amended: `compareContributingRanks` compares element-wise left to
right; the first index where the (padded) values differ decides the winner;
missing trailing elements compare as -1, lower than any real rank — so a
strict prefix loses to a longer sequence holding a further real rank,
rather than tying; ties are exactly pointwise equality of the padded
sequences.  The comparison is antisymmetric, always answers 1, 0 or -1, is
transitive, and on sequences of genuine (non-negative) rank values answers
0 exactly on equal sequences: a total order on rank sequences. -/
theorem claim4_amended :
    (∀ x y : Int, ∀ xs ys : List Int, x > y →
      compareContributingRanks (x :: xs) (y :: ys) = 1) ∧
    (∀ x : Int, ∀ xs ys : List Int,
      compareContributingRanks (x :: xs) (x :: ys) = compareContributingRanks xs ys) ∧
    (∀ y : Int, ∀ ys : List Int, 0 ≤ y →
      compareContributingRanks [] (y :: ys) = -1) ∧
    (∀ a b : List Int, compareContributingRanks a b = -compareContributingRanks b a) ∧
    (∀ a b : List Int, compareContributingRanks a b = 1 ∨
      compareContributingRanks a b = 0 ∨ compareContributingRanks a b = -1) ∧
    (∀ a b c : List Int, compareContributingRanks a b ≤ 0 →
      compareContributingRanks b c ≤ 0 → compareContributingRanks a c ≤ 0) ∧
    (∀ a b : List Int, (∀ x ∈ a, 0 ≤ x) → (∀ x ∈ b, 0 ≤ x) →
      (compareContributingRanks a b = 0 ↔ a = b)) := by
  refine ⟨?_, ?_, ?_, ?_, ?_, ?_, ?_⟩
  · intro x y xs ys hxy
    unfold compareContributingRanks
    rw [List.length_cons, List.length_cons, Nat.succ_max_succ]
    simp only [cmpRanksGo, List.getD_cons_zero]
    rw [if_pos hxy]
  · intro x xs ys
    unfold compareContributingRanks
    rw [List.length_cons, List.length_cons, Nat.succ_max_succ]
    simp only [cmpRanksGo, List.getD_cons_zero]
    rw [if_neg (by omega), if_neg (by omega)]
    exact cmpRanksGo_cons_shift x x xs ys _ 0
  · intro y ys hy
    unfold compareContributingRanks
    rw [List.length_cons, List.length_nil, Nat.zero_max]
    simp only [cmpRanksGo, List.getD_cons_zero, List.getD_nil]
    rw [if_neg (by omega), if_pos (by omega)]
  · intro a b
    unfold compareContributingRanks
    rw [Nat.max_comm b.length a.length]
    exact cmpRanksGo_neg a b _ 0
  · intro a b
    exact cmpRanksGo_trichotomy a b _ 0
  · intro a b c h1 h2
    have n := a.length + b.length + c.length
    unfold compareContributingRanks at h1 h2 ⊢
    rw [cmpRanksGo_fuel_congr a b _ (a.length + b.length + c.length) 0 (by omega) (by omega)] at h1
    rw [cmpRanksGo_fuel_congr b c _ (a.length + b.length + c.length) 0 (by omega) (by omega)] at h2
    rw [cmpRanksGo_fuel_congr a c _ (a.length + b.length + c.length) 0 (by omega) (by omega)]
    exact cmpRanksGo_le_trans a b c _ 0 h1 h2
  · intro a b ha hb
    unfold compareContributingRanks
    rw [cmpRanksGo_zero_iff a b _ 0 (by omega)]
    rw [← pads_eq_iff a b ha hb]
    constructor
    · intro h j; exact h j (by omega)
    · intro h j _; exact h j

/-- Witness for `claim4_amended` at concrete inputs. -/
theorem claim4_amended_witness :
    compareContributingRanks [9, 4] [9, 2] = 1 ∧
      compareContributingRanks [7] [7, 2] = -compareContributingRanks [7, 2] [7] ∧
      (compareContributingRanks [8, 3] [8, 3] = 0 ↔ ([8, 3] : List Int) = [8, 3]) := by
  refine ⟨?_, claim4_amended.2.2.2.1 [7] [7, 2],
    claim4_amended.2.2.2.2.2.2 [8, 3] [8, 3] (by norm_num) (by norm_num)⟩
  rw [claim4_amended.2.1 9 [4] [2]]
  exact claim4_amended.1 4 2 [] [] (by norm_num)

/-! ### Claim C6: `performPlayerDraw` -/

/-- With distinct in-range indices, the number of discarded cards is the
number of indices. -/
theorem length_discardedCards (hand : List Card) (idxs : List Nat) (hnd : idxs.Nodup)
    (hin : ∀ i ∈ idxs, i < hand.length) :
    (discardedCards hand idxs).length = idxs.length := by
  unfold discardedCards
  rw [List.length_map]
  have hcomp : (fun x : Nat × Card => decide (x.1 ∈ idxs)) =
      (fun i => decide (i ∈ idxs)) ∘ Prod.fst := rfl
  rw [hcomp, ← List.length_map _ Prod.fst, ← List.filter_map Prod.fst hand.enum,
    List.enum_map_fst]
  refine (((List.perm_ext_iff_of_nodup ((List.nodup_range _).filter _) hnd).mpr ?_)).length_eq
  intro a
  simp only [List.mem_filter, List.mem_range, decide_eq_true_eq]
  exact ⟨fun h => h.2, fun h => ⟨hin a h, h⟩⟩

/-- The kept cards are the other `hand.length - idxs.length` entries. -/
theorem length_keptCards (hand : List Card) (idxs : List Nat) (hnd : idxs.Nodup)
    (hin : ∀ i ∈ idxs, i < hand.length) :
    (keptCards hand idxs).length = hand.length - idxs.length := by
  have hd := length_discardedCards hand idxs hnd hin
  unfold discardedCards at hd
  unfold keptCards
  rw [List.length_map] at hd ⊢
  have hsplit : hand.enum.length =
      (hand.enum.filter fun x : Nat × Card => decide (x.1 ∈ idxs)).length +
        (hand.enum.filter fun x : Nat × Card => !decide (x.1 ∈ idxs)).length :=
    List.length_eq_length_filter_add _
  rw [List.enum_length] at hsplit
  omega

/-- The number of selected indices is at most the hand size. -/
theorem length_idxs_le (hand : List Card) (idxs : List Nat) (hnd : idxs.Nodup)
    (hin : ∀ i ∈ idxs, i < hand.length) : idxs.length ≤ hand.length := by
  have hd := length_discardedCards hand idxs hnd hin
  have hle : (discardedCards hand idxs).length ≤ hand.enum.length := by
    unfold discardedCards
    rw [List.length_map]
    exact List.length_filter_le _ _
  rw [List.enum_length] at hle
  omega

/-- One draw-loop iteration with a non-empty deck pops the deck's last
card into the hand. -/
theorem drawLoop_concat (shuffle : List Card → List Card) (n : Nat)
    (hand ys discard : List Card) (c : Card) :
    drawLoop shuffle (n + 1) hand (ys ++ [c]) discard =
      drawLoop shuffle n (hand ++ [c]) ys discard := by
  simp [drawLoop, List.getLast?_concat, List.dropLast_concat]

/-- When the deck holds enough cards, the draw loop pops exactly `n` cards
off the end of the deck, in order, into the hand. -/
theorem drawLoop_of_le (shuffle : List Card → List Card) :
    ∀ (n : Nat) (hand deck discard : List Card), n ≤ deck.length →
      drawLoop shuffle n hand deck discard =
        (hand ++ (deck.drop (deck.length - n)).reverse,
          deck.take (deck.length - n), discard) := by
  intro n
  induction n with
  | zero =>
    intro hand deck discard _
    simp [drawLoop]
  | succ n ih =>
    intro hand deck discard h
    rcases List.eq_nil_or_concat' deck with rfl | ⟨ys, c, rfl⟩
    · simp at h
    · rw [List.length_append, List.length_singleton] at h
      have hys : n ≤ ys.length := by omega
      rw [drawLoop_concat, ih (hand ++ [c]) ys discard hys]
      have hm : ys.length + 1 - (n + 1) = ys.length - n := by omega
      rw [List.length_append, List.length_singleton, hm,
        List.drop_append_of_le_length (by omega),
        List.take_append_of_le_length (by omega),
        List.reverse_append]
      simp

/-- Draining: with too few cards, the deck empties after contributing all
its cards to the hand. -/
theorem drawLoop_drain (shuffle : List Card → List Card) :
    ∀ (n : Nat) (deck hand discard : List Card), deck.length ≤ n →
      drawLoop shuffle n hand deck discard =
        drawLoop shuffle (n - deck.length) (hand ++ deck.reverse) [] discard := by
  intro n
  induction n with
  | zero =>
    intro deck hand discard h
    have : deck = [] := List.length_eq_zero.mp (by omega)
    subst this
    simp
  | succ n ih =>
    intro deck hand discard h
    rcases List.eq_nil_or_concat' deck with rfl | ⟨ys, c, rfl⟩
    · simp
    · rw [List.length_append, List.length_singleton] at h
      rw [drawLoop_concat, ih ys (hand ++ [c]) discard (by omega)]
      rw [List.length_append, List.length_singleton, List.reverse_append]
      have hm : n + 1 - (ys.length + 1) = n - ys.length := by omega
      rw [hm]
      simp

/-- Recycling: drawing from an empty deck with a non-empty discard pile
shuffles the pile into the deck and keeps drawing from it. -/
theorem drawLoop_empty_deck (shuffle : List Card → List Card) (n : Nat)
    (hand discard : List Card) (hne : discard ≠ []) (hpos : 0 < n)
    (hlen : n ≤ (shuffle discard).length) :
    drawLoop shuffle n hand [] discard =
      (hand ++ ((shuffle discard).drop ((shuffle discard).length - n)).reverse,
        (shuffle discard).take ((shuffle discard).length - n), []) := by
  cases n with
  | zero => omega
  | succ n =>
    rcases List.eq_nil_or_concat' (shuffle discard) with hnil | ⟨ys, c, hys⟩
    · rw [hnil] at hlen; simp at hlen
    · have step : drawLoop shuffle (n + 1) hand [] discard =
          drawLoop shuffle n (hand ++ [c]) ys [] := by
        have hdne : discard.isEmpty = false := by
          simp [List.isEmpty_iff, hne]
        simp [drawLoop, hdne, hys, List.getLast?_concat, List.dropLast_concat]
      rw [step]
      rw [hys, List.length_append, List.length_singleton] at hlen
      rw [drawLoop_of_le shuffle n (hand ++ [c]) ys [] (by omega), hys]
      rw [List.length_append, List.length_singleton]
      have hm : ys.length + 1 - (n + 1) = ys.length - n := by omega
      rw [hm, List.drop_append_of_le_length (by omega),
        List.take_append_of_le_length (by omega), List.reverse_append]
      simp

/-- C6: for a 5-card hand and distinct in-range discard indices, the draw
(1) refills the hand to exactly 5 cards, (2) keeps the unselected cards as
a prefix in their original relative order, (3) when the deck suffices,
appends exactly the selected cards to the end of the discard pile and draws
exactly `k` cards off the top (end) of the deck, and (4) when the deck
empties mid-draw with a non-empty discard pile, the whole discard pile
(old pile plus the just-discarded cards) is shuffled into the deck, the
pile is cleared, and drawing continues from the shuffled pool. -/
theorem claim6_performPlayerDraw_spec (shuffle : List Card → List Card)
    (hsh : ∀ l, (shuffle l).Perm l) (hand deck discardPile : List Card)
    (idxs : List Nat) (hlen : hand.length = 5) (hnd : idxs.Nodup)
    (hin : ∀ i ∈ idxs, i < 5) :
    (performPlayerDraw shuffle hand idxs deck discardPile).1.length = 5 ∧
    (performPlayerDraw shuffle hand idxs deck discardPile).1.take (5 - idxs.length) =
      keptCards hand idxs ∧
    (idxs.length ≤ deck.length →
      performPlayerDraw shuffle hand idxs deck discardPile =
        (keptCards hand idxs ++ (deck.drop (deck.length - idxs.length)).reverse,
          deck.take (deck.length - idxs.length),
          discardPile ++ discardedCards hand idxs)) ∧
    (deck.length < idxs.length →
      performPlayerDraw shuffle hand idxs deck discardPile =
        (keptCards hand idxs ++ deck.reverse ++
            ((shuffle (discardPile ++ discardedCards hand idxs)).drop
              ((shuffle (discardPile ++ discardedCards hand idxs)).length -
                (idxs.length - deck.length))).reverse,
          (shuffle (discardPile ++ discardedCards hand idxs)).take
            ((shuffle (discardPile ++ discardedCards hand idxs)).length -
              (idxs.length - deck.length)),
          [])) := by
  have hin' : ∀ i ∈ idxs, i < hand.length := by rw [hlen]; exact hin
  have hk := length_idxs_le hand idxs hnd hin'
  rw [hlen] at hk
  have hkept := length_keptCards hand idxs hnd hin'
  rw [hlen] at hkept
  have hdisc := length_discardedCards hand idxs hnd hin'
  have hmain :
      (idxs.length ≤ deck.length →
        performPlayerDraw shuffle hand idxs deck discardPile =
          (keptCards hand idxs ++ (deck.drop (deck.length - idxs.length)).reverse,
            deck.take (deck.length - idxs.length),
            discardPile ++ discardedCards hand idxs)) ∧
      (deck.length < idxs.length →
        performPlayerDraw shuffle hand idxs deck discardPile =
          (keptCards hand idxs ++ deck.reverse ++
              ((shuffle (discardPile ++ discardedCards hand idxs)).drop
                ((shuffle (discardPile ++ discardedCards hand idxs)).length -
                  (idxs.length - deck.length))).reverse,
            (shuffle (discardPile ++ discardedCards hand idxs)).take
              ((shuffle (discardPile ++ discardedCards hand idxs)).length -
                (idxs.length - deck.length)),
            [])) := by
    constructor
    · intro hle
      unfold performPlayerDraw
      exact drawLoop_of_le shuffle idxs.length _ deck _ hle
    · intro hlt
      unfold performPlayerDraw
      rw [drawLoop_drain shuffle idxs.length deck _ _ (by omega)]
      have hpool : (shuffle (discardPile ++ discardedCards hand idxs)).length =
          discardPile.length + idxs.length := by
        rw [(hsh _).length_eq, List.length_append, hdisc]
      have hdne : discardPile ++ discardedCards hand idxs ≠ [] := by
        intro hcon
        have := congrArg List.length hcon
        rw [List.length_append, hdisc, List.length_nil] at this
        omega
      rw [drawLoop_empty_deck shuffle (idxs.length - deck.length) _ _ hdne (by omega)
        (by omega)]
  have h5 : (performPlayerDraw shuffle hand idxs deck discardPile).1.length = 5 := by
    rcases le_or_lt idxs.length deck.length with hle | hlt
    · rw [hmain.1 hle]
      simp only [List.length_append, List.length_reverse, List.length_drop]
      omega
    · rw [hmain.2 hlt]
      have hpool : (shuffle (discardPile ++ discardedCards hand idxs)).length =
          discardPile.length + idxs.length := by
        rw [(hsh _).length_eq, List.length_append, hdisc]
      simp only [List.length_append, List.length_reverse, List.length_drop]
      omega
  refine ⟨h5, ?_, hmain.1, hmain.2⟩
  rcases le_or_lt idxs.length deck.length with hle | hlt
  · rw [hmain.1 hle]
    have : (5 - idxs.length) = (keptCards hand idxs).length := by omega
    rw [this]
    exact List.take_left _ _
  · rw [hmain.2 hlt]
    have hkle : 5 - idxs.length ≤ (keptCards hand idxs ++ deck.reverse).length := by
      rw [List.length_append]
      omega
    show ((keptCards hand idxs ++ deck.reverse) ++ _).take (5 - idxs.length) = _
    rw [List.take_append_of_le_length hkle,
      List.take_append_of_le_length (by omega), ← hkept, List.take_length]

/-- Witness for `claim6_performPlayerDraw_spec`: a concrete draw of two
cards from a one-card deck, exercising discard-pile recycling. -/
theorem claim6_performPlayerDraw_spec_witness :
    (performPlayerDraw id
        [cardOf .spades .ace, cardOf .hearts .r7, cardOf .clubs .r2,
          cardOf .diamonds .r9, cardOf .spades .r4]
        [0, 2] [cardOf .hearts .queen] [cardOf .clubs .jack]).1.length = 5 ∧
      (performPlayerDraw id
          [cardOf .spades .ace, cardOf .hearts .r7, cardOf .clubs .r2,
            cardOf .diamonds .r9, cardOf .spades .r4]
          [0, 2] [cardOf .hearts .queen] [cardOf .clubs .jack]).1.take
          (5 - ([0, 2] : List Nat).length) =
        keptCards
          [cardOf .spades .ace, cardOf .hearts .r7, cardOf .clubs .r2,
            cardOf .diamonds .r9, cardOf .spades .r4] [0, 2] :=
  ⟨(claim6_performPlayerDraw_spec id (fun l => List.Perm.refl l) _ _ _ _
      (by decide) (by decide) (by decide)).1,
    (claim6_performPlayerDraw_spec id (fun l => List.Perm.refl l) _ _ _ _
      (by decide) (by decide) (by decide)).2.1⟩

/-! ### Claim C7: the 54-card closure invariant -/

/-- The reachable state after four players join a fresh session (identity
shuffle): hands are dealt and round 1's draw phase begins. -/
def c7Joined : GameState :=
  handleConnection (handleConnection (handleConnection (handleConnection
    (initializeGameState id) 101) 102) 103) 104

/-- The state after all four players submit 0-card discards in turn order:
the showdown runs and `prepareForNextRoundOrEndGame` starts round 2. -/
def c7AfterRound1 : GameState :=
  (playerDiscardRequest id (playerDiscardRequest id (playerDiscardRequest id
    (playerDiscardRequest id c7Joined 101 []).1 102 []).1 103 []).1 104 []).1

/-- C7 is false of the code: along the reachable trace «four joins, then
four 0-card discards», the deal leaves deck ∪ discard ∪ hands at 54 cards,
but the round advance at the showdown clears every hand WITHOUT returning
the 20 held cards to the deck (server/index.js 127-136 pushes only the
discard pile back before `player.hand = []`), so round 2 starts with only
34 cards in circulation — the closure invariant is violated by
`prepareForNextRoundOrEndGame`. -/
theorem claim7_closure_violated :
    totalCardCount c7Joined = 54 ∧
      c7AfterRound1.gamePhase = .drawPhase ∧
      c7AfterRound1.currentRound = 2 ∧
      totalCardCount c7AfterRound1 = 34 := by
  refine ⟨by decide, by decide, by decide, by decide⟩

/-! ### Claim C8: discard-request validation -/

/-- The source's duplicate check compares `[...new Set(indices)].length`
with `indices.length`; equality is exactly `Nodup`. -/
theorem dedup_length_eq_iff {α : Type} [DecidableEq α] (l : List α) :
    l.dedup.length = l.length ↔ l.Nodup := by
  constructor
  · intro h
    have := List.Sublist.eq_of_length (List.dedup_sublist l) h
    rw [← this]
    exact List.nodup_dedup l
  · intro h
    rw [List.dedup_eq_self.mpr h]

/-- C8: a discard request is rejected — an action error is emitted and the
returned state is the input state, so hands, deck, discard pile, turn
index, phase and flags are all untouched — whenever the phase is not the
draw phase, or the requester is not the player at
`currentPlayerTurnIndex`, or the indices are not a duplicate-free set of
in-range positions of count at most 5. -/
theorem claim8_discard_rejected (shuffle : List Card → List Card) (s : GameState)
    (requesterId : Nat) (indices : List Int)
    (hidx : s.currentPlayerTurnIndex < s.players.length)
    (hbad : s.gamePhase ≠ .drawPhase ∨
      requesterId ≠ (s.players.get ⟨s.currentPlayerTurnIndex, hidx⟩).id ∨
      ¬ ((∀ i ∈ indices, 0 ≤ i ∧
            i < ((s.players.get ⟨s.currentPlayerTurnIndex, hidx⟩).hand.length : Int)) ∧
          indices.length ≤ 5 ∧ indices.Nodup)) :
    (playerDiscardRequest shuffle s requesterId indices).1 = s ∧
      (playerDiscardRequest shuffle s requesterId indices).2.isSome = true := by
  have hget : s.players.get? s.currentPlayerTurnIndex =
      some (s.players.get ⟨s.currentPlayerTurnIndex, hidx⟩) :=
    List.get?_eq_get hidx
  simp only [playerDiscardRequest, hget]
  split_ifs with h1 h2 h3 h4 h5 <;> try exact ⟨rfl, rfl⟩
  all_goals
    exfalso
    rcases hbad with hb | hb | hb
    · exact h1 hb
    · exact h2 hb
    · apply hb
      rw [not_or] at h3
      rcases h3 with ⟨h3a, h3b⟩
      refine ⟨?_, by omega, (dedup_length_eq_iff indices).mp (not_not.mp h4)⟩
      intro i hi
      rw [Bool.not_eq_true, ← Bool.not_eq_true'] at h3a
      rw [Bool.not_eq_true', List.any_eq_false] at h3a
      have h6 := h3a i hi
      simp only [decide_eq_true_eq] at h6
      push_neg at h6
      omega

/-- A concrete one-player draw-phase state used by the C8 witness. -/
def c8Hand : List Card :=
  [cardOf .spades .ace, cardOf .hearts .r7, cardOf .clubs .r2,
    cardOf .diamonds .r9, cardOf .spades .r4]

def c8State : GameState :=
  { players := [{ id := 7, hand := c8Hand, score := 0, hasCompletedDrawPhase := false }]
    deck := []
    discardPile := []
    currentPlayerTurnIndex := 0
    currentRound := 1
    maxRounds := 3
    gamePhase := .drawPhase }

/-- Witness for `claim8_discard_rejected`: a duplicate-index request is
rejected and the state is returned unchanged. -/
theorem claim8_discard_rejected_witness :
    (playerDiscardRequest id c8State 7 [1, 1]).1 = c8State ∧
      (playerDiscardRequest id c8State 7 [1, 1]).2.isSome = true :=
  claim8_discard_rejected id c8State 7 [1, 1] (by decide)
    (Or.inr (Or.inr (by intro h; exact absurd h.2.2 (by decide))))

/-! ### Claim C9: successful discard processing -/

theorem mod_shift_ne (len i c : Nat) (hi : i < len) (hc1 : 1 ≤ c) (hc2 : c ≤ len - 1) :
    (i + c) % len ≠ i := by
  rcases Nat.lt_or_ge (i + c) len with h | h
  · rw [Nat.mod_eq_of_lt h]; omega
  · rw [Nat.mod_eq_sub_mod h, Nat.mod_eq_of_lt (by omega)]; omega

/-- The `do … while` loop lands on the circularly-first incomplete player:
if every strictly closer seat (distance 1 ≤ e < d) has completed and the
seat at distance `d` has not, the loop returns the seat at distance `d`. -/
theorem nextGo_spec (players : List Player) (cur d : Nat)
    (hcur : cur < players.length) (hd1 : 1 ≤ d) (hdlen : d ≤ players.length - 1)
    (hskip : ∀ e, 1 ≤ e → e < d → flagAt players ((cur + e) % players.length) = true)
    (hstop : flagAt players ((cur + d) % players.length) = false) :
    ∀ fuel c, 1 ≤ c → c ≤ d → d - c ≤ fuel →
      nextGo players cur fuel ((cur + c) % players.length) =
        (cur + d) % players.length := by
  intro fuel
  induction fuel with
  | zero =>
    intro c hc1 hcd hfc
    have hcd' : c = d := by omega
    subst hcd'
    rfl
  | succ fuel ih =>
    intro c hc1 hcd hfc
    rcases Nat.eq_or_lt_of_le hcd with hcd' | hlt
    · subst hcd'
      rw [nextGo, if_neg]
      intro hcon
      rw [hstop] at hcon
      exact absurd hcon.1 (by simp)
    · have hflag := hskip c hc1 hlt
      have hne : (cur + c) % players.length ≠ cur :=
        mod_shift_ne _ _ _ hcur hc1 (by omega)
      rw [nextGo, if_pos ⟨hflag, hne⟩]
      have hstep : ((cur + c) % players.length + 1) % players.length =
          (cur + (c + 1)) % players.length := by
        have hadd : cur + c + 1 = cur + (c + 1) := by omega
        rw [Nat.mod_add_mod, hadd]
      rw [hstep]
      exact ih (c + 1) (by omega) (by omega) (by omega)

/-- C9: after a successfully processed discard request the acting player's
`hasCompletedDrawPhase` is true; if every seated player has then completed,
the handler hands the state — with the phase set to the showdown — straight
to `handleShowdown` (the resolver runs immediately); otherwise the phase is
still the draw phase and `currentPlayerTurnIndex` advances circularly to
the first subsequent seat whose flag is false, skipping completed seats. -/
theorem claim9_discard_success (shuffle : List Card → List Card) (s : GameState)
    (requesterId : Nat) (indices : List Int)
    (hidx : s.currentPlayerTurnIndex < s.players.length)
    (hphase : s.gamePhase = .drawPhase)
    (hreq : requesterId = (s.players.get ⟨s.currentPlayerTurnIndex, hidx⟩).id)
    (hval : ∀ i ∈ indices, 0 ≤ i ∧
      i < ((s.players.get ⟨s.currentPlayerTurnIndex, hidx⟩).hand.length : Int))
    (hlen5 : indices.length ≤ 5) (hnd : indices.Nodup) :
    (playerDiscardRequest shuffle s requesterId indices).2 = none ∧
    flagAt (applyDrawToState shuffle s (indices.map Int.toNat)).players
      s.currentPlayerTurnIndex = true ∧
    (((applyDrawToState shuffle s (indices.map Int.toNat)).players.all
        fun p => p.hasCompletedDrawPhase) = true →
      (playerDiscardRequest shuffle s requesterId indices).1 =
        handleShowdown shuffle
          { applyDrawToState shuffle s (indices.map Int.toNat) with
            gamePhase := .showdown }) ∧
    (((applyDrawToState shuffle s (indices.map Int.toNat)).players.all
        fun p => p.hasCompletedDrawPhase) = false →
      (playerDiscardRequest shuffle s requesterId indices).1 =
        { applyDrawToState shuffle s (indices.map Int.toNat) with
          currentPlayerTurnIndex :=
            nextTurnIndex (applyDrawToState shuffle s (indices.map Int.toNat)).players
              s.currentPlayerTurnIndex } ∧
      (playerDiscardRequest shuffle s requesterId indices).1.gamePhase = .drawPhase ∧
      ∃ d, 1 ≤ d ∧
        d ≤ (applyDrawToState shuffle s (indices.map Int.toNat)).players.length - 1 ∧
        nextTurnIndex (applyDrawToState shuffle s (indices.map Int.toNat)).players
            s.currentPlayerTurnIndex =
          (s.currentPlayerTurnIndex + d) %
            (applyDrawToState shuffle s (indices.map Int.toNat)).players.length ∧
        flagAt (applyDrawToState shuffle s (indices.map Int.toNat)).players
          ((s.currentPlayerTurnIndex + d) %
            (applyDrawToState shuffle s (indices.map Int.toNat)).players.length) = false ∧
        (∀ e, 1 ≤ e → e < d →
          flagAt (applyDrawToState shuffle s (indices.map Int.toNat)).players
            ((s.currentPlayerTurnIndex + e) %
              (applyDrawToState shuffle s (indices.map Int.toNat)).players.length) =
            true)) := by
  have hget : s.players.get? s.currentPlayerTurnIndex =
      some (s.players.get ⟨s.currentPlayerTurnIndex, hidx⟩) :=
    List.get?_eq_get hidx
  have hany : (indices.any fun i => decide (i < 0 ∨
      ((s.players.get ⟨s.currentPlayerTurnIndex, hidx⟩).hand.length : Int) ≤ i)) = false := by
    rw [List.any_eq_false]
    intro i hi
    simp only [decide_eq_true_eq]
    have := hval i hi
    push_neg
    omega
  have hdedup : indices.dedup.length = indices.length :=
    (dedup_length_eq_iff indices).mpr hnd
  have hhandler : playerDiscardRequest shuffle s requesterId indices =
      (if (applyDrawToState shuffle s (indices.map Int.toNat)).players.all
          (fun p => p.hasCompletedDrawPhase) then
        (handleShowdown shuffle
          { applyDrawToState shuffle s (indices.map Int.toNat) with
            gamePhase := .showdown }, none)
      else
        ({ applyDrawToState shuffle s (indices.map Int.toNat) with
            currentPlayerTurnIndex :=
              nextTurnIndex (applyDrawToState shuffle s (indices.map Int.toNat)).players
                s.currentPlayerTurnIndex }, none)) := by
    simp only [playerDiscardRequest, hget]
    rw [if_neg (by simp [hphase]), if_neg (by simp [hreq]),
      if_neg (by rw [not_or, hany]; exact ⟨by simp, by omega⟩), if_neg (by omega)]
  -- the acting player's record after the draw
  have hs1players : (applyDrawToState shuffle s (indices.map Int.toNat)).players =
      s.players.set s.currentPlayerTurnIndex
        { s.players.get ⟨s.currentPlayerTurnIndex, hidx⟩ with
          hand := (performPlayerDraw shuffle
            (s.players.get ⟨s.currentPlayerTurnIndex, hidx⟩).hand
            (indices.map Int.toNat) s.deck s.discardPile).1
          hasCompletedDrawPhase := true } := by
    simp only [applyDrawToState, hget]
  have hs1phase : (applyDrawToState shuffle s (indices.map Int.toNat)).gamePhase =
      .drawPhase := by
    simp only [applyDrawToState, hget]
    exact hphase
  have hflagcur : flagAt (applyDrawToState shuffle s (indices.map Int.toNat)).players
      s.currentPlayerTurnIndex = true := by
    rw [hs1players]
    unfold flagAt
    rw [List.get?_eq_getElem?, List.getElem?_set_self hidx]
  refine ⟨?_, hflagcur, ?_, ?_⟩
  · rw [hhandler]
    split_ifs <;> rfl
  · intro hall
    rw [hhandler, if_pos hall]
  · intro hall
    have hlen1 : (applyDrawToState shuffle s (indices.map Int.toNat)).players.length =
        s.players.length := by
      rw [hs1players, List.length_set]
    refine ⟨by rw [hhandler, if_neg (by rw [hall]; simp)], ?_, ?_⟩
    · rw [hhandler, if_neg (by rw [hall]; simp)]
      exact hs1phase
    · -- build the circular distance d to the first incomplete seat
      obtain ⟨p, hpmem, hpflag⟩ := by
        rw [List.all_eq_false] at hall
        exact hall
      obtain ⟨j, hj, hjp⟩ := List.getElem_of_mem hpmem
      have hjflag : flagAt (applyDrawToState shuffle s (indices.map Int.toNat)).players
          j = false := by
        unfold flagAt
        rw [List.get?_eq_getElem?, List.getElem?_eq_getElem hj, hjp]
        simpa using hpflag
      have hjne : j ≠ s.currentPlayerTurnIndex := by
        intro hcon
        rw [hcon, hflagcur] at hjflag
        exact absurd hjflag (by simp)
      have hcur' : s.currentPlayerTurnIndex <
          (applyDrawToState shuffle s (indices.map Int.toNat)).players.length := by
        rw [hlen1]; exact hidx
      set len := (applyDrawToState shuffle s (indices.map Int.toNat)).players.length
        with hlendef
      set cur := s.currentPlayerTurnIndex with hcurdef
      -- the distance from cur to j, circularly
      have he0 : ∃ e0, 1 ≤ e0 ∧ e0 ≤ len - 1 ∧ (cur + e0) % len = j := by
        rcases Nat.lt_or_ge cur j with hlt | hge
        · exact ⟨j - cur, by omega, by rw [hlen1] at hj ⊢; omega,
            by rw [Nat.mod_eq_of_lt (by omega)]; omega⟩
        · have hjlt : j < cur := by omega
          refine ⟨j + len - cur, by omega, by omega, ?_⟩
          have : cur + (j + len - cur) = j + len := by omega
          rw [this, Nat.add_mod_right]
          exact Nat.mod_eq_of_lt (by rw [hlen1] at hj; omega)
      obtain ⟨e0, he01, he0len, he0j⟩ := he0
      have hQex : ∃ e, flagAt (applyDrawToState shuffle s (indices.map Int.toNat)).players
          ((cur + (e + 1)) % len) = false := by
        refine ⟨e0 - 1, ?_⟩
        have : e0 - 1 + 1 = e0 := by omega
        rw [this, he0j]
        exact hjflag
      refine ⟨Nat.find hQex + 1, by omega, ?_, ?_, Nat.find_spec hQex, ?_⟩
      · have hfind_le : Nat.find hQex ≤ e0 - 1 := Nat.find_min' hQex (by
          have : e0 - 1 + 1 = e0 := by omega
          rw [this, he0j]
          exact hjflag)
        omega
      · unfold nextTurnIndex
        have hfuel : len - (Nat.find hQex + 1) ≤ len := by omega
        have hd1 : 1 ≤ Nat.find hQex + 1 := by omega
        have hdlen : Nat.find hQex + 1 ≤ len - 1 := by
          have hfind_le : Nat.find hQex ≤ e0 - 1 := Nat.find_min' hQex (by
            have : e0 - 1 + 1 = e0 := by omega
            rw [this, he0j]
            exact hjflag)
          omega
        have hskip : ∀ e, 1 ≤ e → e < Nat.find hQex + 1 →
            flagAt (applyDrawToState shuffle s (indices.map Int.toNat)).players
              ((cur + e) % len) = true := by
          intro e he1 helt
          have hmin := Nat.find_min hQex (show e - 1 < Nat.find hQex by omega)
          have hee : e - 1 + 1 = e := by omega
          rw [hee] at hmin
          cases hfe : flagAt (applyDrawToState shuffle s (indices.map Int.toNat)).players
            ((cur + e) % len) with
          | true => rfl
          | false => exact absurd hfe hmin
        have hstep := nextGo_spec
          (applyDrawToState shuffle s (indices.map Int.toNat)).players cur
          (Nat.find hQex + 1) hcur' hd1 hdlen hskip (Nat.find_spec hQex) len 1
          (by omega) (by omega) (by omega)
        have h1c : (cur + 1) % len = (cur + 1) % len := rfl
        exact hstep
      · intro e he1 helt
        have hmin := Nat.find_min hQex (show e - 1 < Nat.find hQex by omega)
        have hee : e - 1 + 1 = e := by omega
        rw [hee] at hmin
        cases hfe : flagAt (applyDrawToState shuffle s (indices.map Int.toNat)).players
          ((cur + e) % len) with
        | true => rfl
        | false => exact absurd hfe hmin

/-- A concrete two-player draw-phase state used by the C9 witness. -/
def c9P1 : Player := { id := 1, hand := c8Hand, score := 0, hasCompletedDrawPhase := false }

def c9P2 : Player := { id := 2, hand := c8Hand, score := 0, hasCompletedDrawPhase := false }

def c9State : GameState :=
  { players := [c9P1, c9P2]
    deck := [cardOf .hearts .king, cardOf .hearts .queen]
    discardPile := []
    currentPlayerTurnIndex := 0
    currentRound := 1
    maxRounds := 3
    gamePhase := .drawPhase }

/-- Witness for `claim9_discard_success`: player 1 keeps all five cards;
the request succeeds and their draw-phase flag is set. -/
theorem claim9_discard_success_witness :
    (playerDiscardRequest id c9State 1 []).2 = none ∧
      flagAt (applyDrawToState id c9State (([] : List Int).map Int.toNat)).players
        c9State.currentPlayerTurnIndex = true :=
  ⟨(claim9_discard_success id c9State 1 [] (by decide) rfl (by decide) (by decide)
      (by decide) (by decide)).1,
    (claim9_discard_success id c9State 1 [] (by decide) rfl (by decide) (by decide)
      (by decide) (by decide)).2.1⟩

/-! ### Claim C10: showdown scoring -/

theorem incrementWinner_map_id (ps : List Player) (w : Nat) :
    ((incrementWinner ps w).map fun p => p.id) = ps.map fun p => p.id := by
  induction ps with
  | nil => rfl
  | cons p ps ih =>
    simp only [incrementWinner]
    by_cases hw : p.id = w
    · rw [if_pos hw]; simp
    · rw [if_neg hw]; simp [ih]

/-- `incrementWinner` adds one point to the (unique, by `Nodup`) player
with the given id and leaves everyone else alone. -/
theorem incrementWinner_get (w : Nat) :
    ∀ ps : List Player, ((ps.map fun p => p.id).Nodup) → ∀ i,
      ((incrementWinner ps w).get? i).map (fun p => (p.id, p.score)) =
        (ps.get? i).map fun p => (p.id, p.score + if p.id = w then 1 else 0) := by
  intro ps
  induction ps with
  | nil => intro _ i; rfl
  | cons p ps ih =>
    intro hnd i
    rw [List.map_cons, List.nodup_cons] at hnd
    have hnodup := hnd
    simp only [incrementWinner]
    by_cases hw : p.id = w
    · rw [if_pos hw]
      cases i with
      | zero => simp [hw]
      | succ i =>
        simp only [List.get?_cons_succ]
        cases hq : ps.get? i with
        | none => rfl
        | some q =>
          have hqw : q.id ≠ w := by
            intro hcon
            exact hnodup.1 (hw ▸ hcon ▸ List.mem_map_of_mem (fun p => p.id)
              (List.get?_mem hq))
          simp [hqw]
    · rw [if_neg hw]
      cases i with
      | zero => simp [hw]
      | succ i =>
        simp only [List.get?_cons_succ]
        exact ih hnodup.2 i

/-- Folding `incrementWinner` over a duplicate-free winner list adds one
point to exactly the players whose id is among the winners. -/
theorem foldl_incrementWinner_get (ws : List Nat) :
    ∀ ps : List Player, (ps.map fun p => p.id).Nodup → ws.Nodup → ∀ i,
      ((ws.foldl incrementWinner ps).get? i).map (fun p => (p.id, p.score)) =
        (ps.get? i).map fun p => (p.id, p.score + if p.id ∈ ws then 1 else 0) := by
  induction ws with
  | nil =>
    intro ps _ _ i
    simp
  | cons w ws ih =>
    intro ps hnd hwnd i
    rw [List.foldl_cons]
    have hid := incrementWinner_map_id ps w
    have htail := ih (incrementWinner ps w) (by rw [hid]; exact hnd)
      (List.nodup_cons.mp hwnd).2 i
    rw [htail]
    have hinc := incrementWinner_get w ps hnd i
    have hwnotin := (List.nodup_cons.mp hwnd).1
    cases hq : ps.get? i with
    | none =>
      have hnone : (incrementWinner ps w).get? i = none := by
        have hlen : (incrementWinner ps w).length = ps.length := by
          have hl := congrArg List.length hid
          simpa using hl
        rw [List.get?_eq_none] at hq ⊢
        omega
      rw [hnone]
      rfl
    | some q =>
      rw [hq] at hinc
      cases hq2 : (incrementWinner ps w).get? i with
      | none => rw [hq2] at hinc; exact absurd hinc (by simp)
      | some r =>
        rw [hq2] at hinc
        simp only [Option.map_some', Option.some.injEq, Prod.mk.injEq] at hinc
        simp only [Option.map_some', Option.some.injEq, Prod.mk.injEq]
        refine ⟨hinc.1, ?_⟩
        rw [hinc.2]
        by_cases hqw : q.id = w
        · have hnotin : q.id ∉ ws := by rw [hqw]; exact hwnotin
          rw [hinc.1]
          simp [hqw, hnotin, hwnotin, List.mem_cons]
        · rw [hinc.1]
          by_cases hmem : q.id ∈ ws <;> simp [hqw, hmem, List.mem_cons]

/-- Dealing changes only hands: ids and scores are untouched. -/
theorem dealInitialHands_pairs : ∀ (ps : List Player) (deck : List Card),
    ((dealInitialHands ps deck).1.map fun p => (p.id, p.score)) =
      ps.map fun p => (p.id, p.score) := by
  intro ps
  induction ps with
  | nil => intro deck; rfl
  | cons p ps ih => intro deck; simp [dealInitialHands, ih]

/-- The round advance changes phases, hands and the deck, never ids or
scores. -/
theorem prepare_pairs (shuffle : List Card → List Card) (st : GameState) :
    ((prepareForNextRoundOrEndGame shuffle st).players.map fun p => (p.id, p.score)) =
      st.players.map fun p => (p.id, p.score) := by
  simp only [prepareForNextRoundOrEndGame]
  split_ifs
  · rfl
  · rw [dealInitialHands_pairs, List.map_map]
    congr 1

/-- With duplicate-free player ids, the computed winner-id list is
duplicate-free (it is a prefix of a permutation of a sublist of the
entries). -/
theorem roundWinnerIds_nodup (players : List Player)
    (hids : (players.map fun p => p.id).Nodup) : (roundWinnerIds players).Nodup := by
  have hent : ((showdownEntries players).map fun e => e.playerId).Nodup := by
    unfold showdownEntries
    rw [List.map_map]
    have hfun : ((fun e : ShowdownEntry => e.playerId) ∘ fun p : Player =>
        ShowdownEntry.mk p.id (evalHandOrDefault p.hand).score
          (evalHandOrDefault p.hand).contributingRanks) = fun p : Player => p.id := by
      funext p; rfl
    rw [show ((fun e : ShowdownEntry => e.playerId) ∘ fun p : Player =>
        let r := evalHandOrDefault p.hand
        ShowdownEntry.mk p.id r.score r.contributingRanks) = fun p : Player => p.id
      from by funext p; rfl]
    exact hids
  have hpot : (((showdownEntries players).filter fun e =>
      decide ((e.handStrengthScore : Int) = bestScore (showdownEntries players))).map
        fun e => e.playerId).Nodup :=
    List.Nodup.sublist ((List.filter_sublist _).map _) hent
  simp only [roundWinnerIds, roundWinners]
  split_ifs with h1 h2
  · exact hpot
  · cases hs : (((showdownEntries players).filter fun e =>
        decide ((e.handStrengthScore : Int) = bestScore (showdownEntries players))).insertionSort
          fun a b => 0 ≤ compareContributingRanks a.contributingRanks b.contributingRanks) with
    | nil => simp
    | cons first rest =>
      have hperm := List.perm_insertionSort
        (fun a b : ShowdownEntry =>
          0 ≤ compareContributingRanks a.contributingRanks b.contributingRanks)
        ((showdownEntries players).filter fun e =>
          decide ((e.handStrengthScore : Int) = bestScore (showdownEntries players)))
      rw [hs] at hperm
      have hsorted : ((first :: rest).map fun e : ShowdownEntry => e.playerId).Nodup :=
        ((hperm.map fun e => e.playerId).nodup_iff).mpr hpot
      have hres : ((first :: rest.takeWhile fun e =>
          decide (compareContributingRanks first.contributingRanks e.contributingRanks = 0)).map
            fun e : ShowdownEntry => e.playerId).Nodup :=
        List.Nodup.sublist
          ((List.cons_sublist_cons.mpr (List.takeWhile_sublist _)).map
            fun e : ShowdownEntry => e.playerId)
          hsorted
      exact hres
  · simp

/-- **C10.** At each showdown every computed round winner's cumulative
score increases by exactly 1 and every other player's score is unchanged,
independent of hand category: position by position, the player list after
`handleShowdown` carries score `p.score + 1` exactly when `p.id` is among
the round winner ids, and `p.score` otherwise (player ids assumed
pairwise distinct, as the server assigns them). -/
theorem claim10_showdown_scores (shuffle : List Card → List Card) (s : GameState)
    (hph : s.gamePhase = .showdown)
    (hids : (s.players.map fun p => p.id).Nodup) : ∀ i,
    ((handleShowdown shuffle s).players.get? i).map (fun p => p.score) =
      (s.players.get? i).map fun p =>
        p.score + if p.id ∈ roundWinnerIds s.players then 1 else 0 := by
  intro i
  have hshow : handleShowdown shuffle s = prepareForNextRoundOrEndGame shuffle
      { s with players := (roundWinnerIds s.players).foldl incrementWinner s.players } := by
    unfold handleShowdown
    rw [if_neg (by simp [hph])]
  have hfold := foldl_incrementWinner_get (roundWinnerIds s.players) s.players hids
    (roundWinnerIds_nodup s.players hids) i
  have hprep := prepare_pairs shuffle
    { s with players := (roundWinnerIds s.players).foldl incrementWinner s.players }
  have hpair : (((handleShowdown shuffle s).players.get? i).map fun p => (p.id, p.score)) =
      (s.players.get? i).map fun p =>
        (p.id, p.score + if p.id ∈ roundWinnerIds s.players then 1 else 0) := by
    have hgets : (((prepareForNextRoundOrEndGame shuffle
          { s with players :=
              (roundWinnerIds s.players).foldl incrementWinner s.players }).players.get? i).map
            fun p => (p.id, p.score)) =
        ((((roundWinnerIds s.players).foldl incrementWinner s.players).get? i).map
          fun p => (p.id, p.score)) := by
      rw [List.get?_eq_getElem?, List.get?_eq_getElem?, ← List.getElem?_map,
        ← List.getElem?_map, hprep]
    rw [hshow]
    exact (hgets.trans hfold)
  have hproj := congrArg (Option.map Prod.snd) hpair
  rw [Option.map_map, Option.map_map] at hproj
  exact hproj

def c10H1 : List Card :=
  [cardOf .spades .ace, cardOf .spades .king, cardOf .spades .queen,
    cardOf .spades .jack, cardOf .spades .r10]

def c10H2 : List Card :=
  [cardOf .hearts .r2, cardOf .hearts .r3, cardOf .hearts .r4,
    cardOf .hearts .r5, cardOf .diamonds .r7]

def c10P1 : Player := { id := 7, hand := c10H1, score := 0, hasCompletedDrawPhase := true }

def c10P2 : Player := { id := 9, hand := c10H2, score := 5, hasCompletedDrawPhase := true }

def c10State : GameState :=
  { players := [c10P1, c10P2]
    deck := []
    discardPile := []
    currentPlayerTurnIndex := 0
    currentRound := 1
    maxRounds := 3
    gamePhase := .showdown }

theorem claim10_showdown_scores_witness :
    ((handleShowdown id c10State).players.get? 0).map (fun p => p.score) =
      (c10State.players.get? 0).map fun p =>
        p.score + if p.id ∈ roundWinnerIds c10State.players then 1 else 0 :=
  claim10_showdown_scores id c10State rfl (by decide) 0
